import Mathlib

/-!
Shallow embedding of the 15x15 crossword puzzle generator (src/types.ts and the
generator module). Strings of the source are modelled as lists of characters,
the empty grid cell as the value none, and the process-wide pseudo-random
source as an explicit stream of natural-number draws threaded through every
operation that reads it: a draw of Math.floor(Math.random() * n) consumes the
head of the stream reduced modulo n. The word pool and the solution-word list,
which the source imports as static data, are parameters.
-/

set_option linter.unusedVariables false
set_option maxRecDepth 100000

namespace Crossword

/-- Grid side length, GRID_SIZE in the source. -/
def GRID_SIZE : Nat := 15

/-- Placement orientation, the source's union type of across and down. -/
inductive Dir where
  | across
  | down
deriving DecidableEq

/-- The perpendicular orientation (otherDir in canPlaceWord). -/
def Dir.other : Dir → Dir
  | .across => .down
  | .down => .across

/-- An entry of the external word pool (interface WordEntry). -/
structure WordEntry where
  word : List Char
  clue : String
  category : String
deriving DecidableEq

/-- A placed word (interface PlacedWord). -/
structure PlacedWord where
  word : List Char
  clue : String
  row : Nat
  col : Nat
  direction : Dir
  number : Nat
deriving DecidableEq

/-- One pseudo-random draw: Math.floor(Math.random() * n) is modelled by
consuming the head of the draw stream, reduced modulo n. -/
def randNat (rng : List Nat) (n : Nat) : Nat × List Nat :=
  (rng.headD 0 % n, rng.tail)

/-- Functional swap of two list positions, the destructuring assignment used
by shuffle; out-of-range indices leave the list unchanged. -/
def listSwap {α : Type} (l : List α) (i j : Nat) : List α :=
  match l[i]?, l[j]? with
  | some x, some y => (l.set i y).set j x
  | _, _ => l

/-- Fisher-Yates downward loop of the source's shuffle: index k + 1 draws a
random j below k + 2 and swaps; the loop stops once the index reaches 0. -/
def shuffleGo {α : Type} : Nat → List α → List Nat → List α × List Nat
  | 0, a, rng => (a, rng)
  | k + 1, a, rng =>
    let d := randNat rng (k + 2)
    shuffleGo k (listSwap a (k + 1) d.1) d.2

/-- The source's shuffle function. -/
def shuffle {α : Type} (a : List α) (rng : List Nat) : List α × List Nat :=
  shuffleGo (a.length - 1) a rng

/-- The letter grid built up during placement: 15 rows of 15 optional letters,
with none standing for the empty string cell of the source. -/
abbrev GridS := List (List (Option Char))

/-- createEmptyGrid of the source. -/
def createEmptyGrid : GridS :=
  List.replicate GRID_SIZE (List.replicate GRID_SIZE (none : Option Char))

/-- Read grid[r][c]; out-of-range reads yield the empty cell. -/
def gridGet (g : GridS) (r c : Nat) : Option Char :=
  (g.getD r []).getD c none

/-- Write grid[r][c]; out-of-range writes leave the grid unchanged. -/
def gridSet (g : GridS) (r c : Nat) (v : Option Char) : GridS :=
  g.set r ((g.getD r []).set c v)

/-- Row of the i-th letter of a word starting at row with direction dir. -/
def posR (row : Nat) (dir : Dir) (i : Nat) : Nat :=
  match dir with
  | .across => row
  | .down => row + i

/-- Column of the i-th letter of a word starting at col with direction dir. -/
def posC (col : Nat) (dir : Dir) (i : Nat) : Nat :=
  match dir with
  | .across => col + i
  | .down => col

/-- Whether the placed word covers cell (r, c), as scanned by getOccupied. -/
def coversB (pw : PlacedWord) (r c : Nat) : Bool :=
  (List.range pw.word.length).any (fun i =>
    posR pw.row pw.direction i == r && posC pw.col pw.direction i == c)

/-- Occupancy lookup: getOccupied(placed) records direction d for the key of
cell (r, c) exactly when some placed word of direction d covers the cell. -/
def occupiedHas (placed : List PlacedWord) (r c : Nat) (d : Dir) : Bool :=
  placed.any (fun pw => pw.direction == d && coversB pw r c)

/-- The illegal-adjacency test of canPlaceWord for an empty target cell: some
neighbouring cell along the perpendicular axis is on the grid and occupied. -/
def badAdj (grid : GridS) (row col : Nat) (dir : Dir) (i : Nat) : Bool :=
  match dir with
  | .across =>
    (decide (0 < posR row dir i) &&
      (gridGet grid (posR row dir i - 1) (posC col dir i)).isSome) ||
    (decide (posR row dir i < GRID_SIZE - 1) &&
      (gridGet grid (posR row dir i + 1) (posC col dir i)).isSome)
  | .down =>
    (decide (0 < posC col dir i) &&
      (gridGet grid (posR row dir i) (posC col dir i - 1)).isSome) ||
    (decide (posC col dir i < GRID_SIZE - 1) &&
      (gridGet grid (posR row dir i) (posC col dir i + 1)).isSome)

/-- The per-letter loop of canPlaceWord over the index list l: returns none as
soon as one position is rejected, otherwise the number of intersections. -/
def checkCells (grid : GridS) (word : List Char) (row col : Nat) (dir : Dir)
    (placed : List PlacedWord) : List Nat → Option Nat
  | [] => some 0
  | i :: rest =>
    match gridGet grid (posR row dir i) (posC col dir i) with
    | some ch =>
      if ch ≠ word.getD i 'A' then none
      else if occupiedHas placed (posR row dir i) (posC col dir i) dir then none
      else if occupiedHas placed (posR row dir i) (posC col dir i) dir.other then
        match checkCells grid word row col dir placed rest with
        | none => none
        | some n => some (n + 1)
      else none
    | none =>
      if badAdj grid row col dir i then none
      else checkCells grid word row col dir placed rest

/-- canPlaceWord of the source. The occupancy argument of the source is always
getOccupied(placed) at every call site and is therefore derived from placed
here via occupiedHas. -/
def canPlaceWord (grid : GridS) (word : List Char) (row col : Nat) (dir : Dir)
    (placed : List PlacedWord) : Bool :=
  match dir with
  | .across =>
    if GRID_SIZE < col + word.length then false
    else if 0 < col ∧ (gridGet grid row (col - 1)).isSome then false
    else if col + word.length < GRID_SIZE ∧ (gridGet grid row (col + word.length)).isSome then false
    else
      match checkCells grid word row col .across placed (List.range word.length) with
      | none => false
      | some n => if placed ≠ [] ∧ n = 0 then false else true
  | .down =>
    if GRID_SIZE < row + word.length then false
    else if 0 < row ∧ (gridGet grid (row - 1) col).isSome then false
    else if row + word.length < GRID_SIZE ∧ (gridGet grid (row + word.length) col).isSome then false
    else
      match checkCells grid word row col .down placed (List.range word.length) with
      | none => false
      | some n => if placed ≠ [] ∧ n = 0 then false else true

/-- The letter-writing loop of placeWord, recursing over the word with the
current letter index. -/
def placeWordGo (row col : Nat) (dir : Dir) : GridS → Nat → List Char → GridS
  | g, _, [] => g
  | g, i, ch :: rest =>
    placeWordGo row col dir
      (gridSet g (posR row dir i) (posC col dir i) (some ch)) (i + 1) rest

/-- placeWord of the source. -/
def placeWord (g : GridS) (word : List Char) (row col : Nat) (dir : Dir) : GridS :=
  placeWordGo row col dir g 0 word

/-- The number of positions whose target letter coincides with the word's
letter, as counted by the scoring loop of findBestPlacement. -/
def matchCount (g : GridS) (word : List Char) (r c : Nat) (dir : Dir) : Nat :=
  (List.range word.length).countP (fun i =>
    gridGet g (posR r dir i) (posC c dir i) == some (word.getD i 'A'))

/-- centerR of the scoring step: the row centre of the candidate word. -/
def centerRQ (r : Nat) (len : Nat) (dir : Dir) : ℚ :=
  match dir with
  | .across => (r : ℚ)
  | .down => (r : ℚ) + (len : ℚ) / 2

/-- centerC of the scoring step: the column centre of the candidate word. -/
def centerCQ (c : Nat) (len : Nat) (dir : Dir) : ℚ :=
  match dir with
  | .across => (c : ℚ) + (len : ℚ) / 2
  | .down => (c : ℚ)

/-- Twice the source's centerR, which is always an exact integer. -/
def centerR2 (r : Nat) (len : Nat) (dir : Dir) : Int :=
  match dir with
  | .across => 2 * (r : Int)
  | .down => 2 * (r : Int) + (len : Int)

/-- Twice the source's centerC, which is always an exact integer. -/
def centerC2 (c : Nat) (len : Nat) (dir : Dir) : Int :=
  match dir with
  | .across => 2 * (c : Int) + (len : Int)
  | .down => 2 * (c : Int)

/-- Four times the score findBestPlacement computes for a legal candidate
position. The source's floating-point score 10·matches − 0.5·(|centerR − 7| +
|centerC − 7|) is always an exact multiple of 1/4, so it is represented here
exactly as the integer 4·score; every comparison the source performs on
scores is a strict order comparison and is invariant under the scaling. -/
def score4 (g : GridS) (word : List Char) (r c : Nat) (dir : Dir) : Int :=
  40 * (matchCount g word r c dir : Int) -
    (|centerR2 r word.length dir - 14| + |centerC2 c word.length dir - 14|)

/-- The exact rational score of a candidate position, as the source computes
it. -/
def scoreQ (g : GridS) (word : List Char) (r c : Nat) (dir : Dir) : ℚ :=
  (score4 g word r c dir : ℚ) / 4

/-- A candidate placement kept by findBestPlacement; the score field carries
the exact integer 4·score. -/
structure Placement where
  row : Nat
  col : Nat
  direction : Dir
  score : Int
deriving DecidableEq

/-- The scan order of findBestPlacement: direction across then down, row
ascending, column ascending, with the same loop bounds as the source. -/
def scanOrder (len : Nat) : List (Dir × Nat × Nat) :=
  ((List.range GRID_SIZE).flatMap fun r =>
    (List.range (GRID_SIZE + 1 - len)).map fun c => (Dir.across, r, c)) ++
  ((List.range (GRID_SIZE + 1 - len)).flatMap fun r =>
    (List.range GRID_SIZE).map fun c => (Dir.down, r, c))

/-- The best-so-far fold of findBestPlacement: a later candidate replaces the
current best only when its score is strictly greater. -/
def bestFold (g : GridS) (word : List Char) (placed : List PlacedWord) :
    List (Dir × Nat × Nat) → Option Placement → Option Placement
  | [], best => best
  | t :: rest, best =>
    if canPlaceWord g word t.2.1 t.2.2 t.1 placed then
      let s := score4 g word t.2.1 t.2.2 t.1
      let best' :=
        match best with
        | none => some ⟨t.2.1, t.2.2, t.1, s⟩
        | some b => if b.score < s then some ⟨t.2.1, t.2.2, t.1, s⟩ else some b
      bestFold g word placed rest best'
    else
      bestFold g word placed rest best

/-- findBestPlacement of the source. -/
def findBestPlacement (g : GridS) (word : List Char) (placed : List PlacedWord) :
    Option Placement :=
  bestFold g word placed (scanOrder word.length) none

/-- Build the PlacedWord record pushed by generatePuzzle (number starts at 0). -/
def mkPlaced (word : List Char) (clue : String) (row col : Nat) (dir : Dir) :
    PlacedWord :=
  { word := word, clue := clue, row := row, col := col, direction := dir,
    number := 0 }

/-- One iteration of the greedy placement loop of generatePuzzle: commit the
best placement when it exists and scores strictly above 0, else skip. -/
def placeStep (s : GridS × List PlacedWord) (e : WordEntry) :
    GridS × List PlacedWord :=
  match findBestPlacement s.1 e.word s.2 with
  | some p =>
    if 0 < p.score then
      (placeWord s.1 e.word p.row p.col p.direction,
       s.2 ++ [mkPlaced e.word e.clue p.row p.col p.direction])
    else s
  | none => s

/-- The greedy placement loop over the shuffled pool tail; the loop condition
also stops as soon as 28 words have been placed. -/
def placeLoop : List WordEntry → GridS × List PlacedWord → GridS × List PlacedWord
  | [], s => s
  | e :: rest, s =>
    if s.2.length < 28 then placeLoop rest (placeStep s e)
    else s

/-- One placement attempt of generatePuzzle: shuffle the pool, keep words that
fit the grid, seed the first word horizontally centred at the middle row
(floor of GRID_SIZE / 2), then place the remaining words greedily. -/
def runAttempt (pool : List WordEntry) (rng : List Nat) :
    (GridS × List PlacedWord) × List Nat :=
  match (shuffle pool rng).1.filter (fun e => e.word.length ≤ GRID_SIZE) with
  | [] => ((createEmptyGrid, []), (shuffle pool rng).2)
  | first :: rest =>
    (placeLoop rest
      (placeWord createEmptyGrid first.word (GRID_SIZE / 2)
        ((GRID_SIZE - first.word.length) / 2) .across,
       [mkPlaced first.word first.clue (GRID_SIZE / 2)
         ((GRID_SIZE - first.word.length) / 2) .across]),
     (shuffle pool rng).2)

/-- The attempt loop of generatePuzzle: run n attempts, keeping the attempt
that placed strictly more words than the best so far. -/
def attemptsGo (pool : List WordEntry) :
    Nat → (GridS × List PlacedWord) → List Nat → (GridS × List PlacedWord) × List Nat
  | 0, best, rng => (best, rng)
  | n + 1, best, rng =>
    attemptsGo pool n
      (if best.2.length < (runAttempt pool rng).1.2.length
       then (runAttempt pool rng).1 else best)
      (runAttempt pool rng).2

/-- Start cell of a placed word, the key of the clue-number map. -/
def startKey (pw : PlacedWord) : Nat × Nat := (pw.row, pw.col)

/-- The comparator generatePuzzle sorts placed words by: row first, column
second, both ascending. -/
def pwLe (a b : PlacedWord) : Prop :=
  a.row < b.row ∨ (a.row = b.row ∧ a.col ≤ b.col)

instance : DecidableRel pwLe := fun a b => by
  unfold pwLe
  infer_instance

instance : IsTotal PlacedWord pwLe where
  total a b := by unfold pwLe; omega

instance : IsTrans PlacedWord pwLe where
  trans a b c := by unfold pwLe; omega

/-- The in-place sort of bestPlaced by start position. -/
def sortPlaced (ws : List PlacedWord) : List PlacedWord :=
  List.insertionSort pwLe ws

/-- Lookup in the association-list model of the numberMap. -/
def keyLookup : List ((Nat × Nat) × Nat) → Nat × Nat → Option Nat
  | [], _ => none
  | kv :: rest, k => if kv.1 = k then some kv.2 else keyLookup rest k

/-- The clue-numbering walk: the first word at a fresh start cell is given the
next number, later words at the same start cell reuse it. Returns the
renumbered words together with the final map and counter. -/
def numberGo : List PlacedWord → List ((Nat × Nat) × Nat) → Nat →
    List PlacedWord × List ((Nat × Nat) × Nat) × Nat
  | [], m, n => ([], m, n)
  | pw :: rest, m, n =>
    match keyLookup m (startKey pw) with
    | some v =>
      let res := numberGo rest m n
      ({ pw with number := v } :: res.1, res.2)
    | none =>
      let res := numberGo rest ((startKey pw, n) :: m) (n + 1)
      ({ pw with number := n } :: res.1, res.2)

/-- Number the clues of a sorted placed-word list starting at 1. -/
def assignNumbers (ws : List PlacedWord) : List PlacedWord :=
  (numberGo ws [] 1).1

/-- Output cell (interface Cell); null fields become none. -/
structure Cell where
  letter : Option Char
  userInput : String
  isBlack : Bool
  number : Option Nat
  acrossClue : Option Nat
  downClue : Option Nat
  isSolutionCell : Bool
  solutionIndex : Option Nat
  revealed : Bool
  checked : Bool
  isCorrect : Option Bool
deriving DecidableEq

/-- The presentation grid of cells. -/
abbrev CellGrid := List (List Cell)

/-- Placeholder cell for out-of-range reads. -/
def defaultCell : Cell :=
  { letter := none, userInput := "", isBlack := true, number := none,
    acrossClue := none, downClue := none, isSolutionCell := false,
    solutionIndex := none, revealed := false, checked := false,
    isCorrect := none }

/-- Read cellGrid[r][c]. -/
def cellAt (cg : CellGrid) (r c : Nat) : Cell :=
  (cg.getD r []).getD c defaultCell

/-- Write cellGrid[r][c]; out-of-range writes leave the grid unchanged. -/
def cellSet (cg : CellGrid) (r c : Nat) (x : Cell) : CellGrid :=
  cg.set r ((cg.getD r []).set c x)

/-- In-place field mutation of one cell. -/
def cellUpdate (cg : CellGrid) (r c : Nat) (f : Cell → Cell) : CellGrid :=
  cellSet cg r c (f (cellAt cg r c))

/-- The cell-grid construction of generatePuzzle: a cell is black exactly when
its letter cell is empty, and every other field starts neutral. -/
def buildCellGrid (g : GridS) : CellGrid :=
  (List.range GRID_SIZE).map fun r =>
    (List.range GRID_SIZE).map fun c =>
      { letter := gridGet g r c, userInput := "",
        isBlack := (gridGet g r c).isNone,
        number := none, acrossClue := none, downClue := none,
        isSolutionCell := false, solutionIndex := none,
        revealed := false, checked := false, isCorrect := none }

/-- Set the start-cell display number of one word: a cell keeps the smallest
number among the words starting there. -/
def setStartNumber (cg : CellGrid) (pw : PlacedWord) : CellGrid :=
  cellUpdate cg pw.row pw.col (fun x =>
    match x.number with
    | none => { x with number := some pw.number }
    | some m =>
      if pw.number < m then { x with number := some pw.number } else x)

/-- Write the across or down clue number on every cell of one word. -/
def setClueCells (cg : CellGrid) (pw : PlacedWord) : CellGrid :=
  (List.range pw.word.length).foldl
    (fun cg2 i =>
      match pw.direction with
      | .across =>
        cellUpdate cg2 (posR pw.row pw.direction i) (posC pw.col pw.direction i)
          (fun x => { x with acrossClue := some pw.number })
      | .down =>
        cellUpdate cg2 (posR pw.row pw.direction i) (posC pw.col pw.direction i)
          (fun x => { x with downClue := some pw.number }))
    cg

/-- The numbers-and-clue-references pass of generatePuzzle. -/
def setNumAndClues (cg : CellGrid) (ws : List PlacedWord) : CellGrid :=
  ws.foldl (fun cg2 pw => setClueCells (setStartNumber cg2 pw) pw) cg

/-- cellToWords of generatePuzzle as a lookup: the indices of the placed words
covering cell (r, c), in ascending order. -/
def wordIndicesAt (ws : List PlacedWord) (r c : Nat) : List Nat :=
  (List.range ws.length).filter
    (fun wi => coversB (ws.getD wi (mkPlaced [] "" 0 0 .across)) r c)

/-- The row-major list of non-black cells of the grid. -/
def letterCells (cg : CellGrid) : List (Nat × Nat) :=
  (List.range GRID_SIZE).flatMap fun r =>
    ((List.range GRID_SIZE).filter (fun c => !(cellAt cg r c).isBlack)).map
      fun c => (r, c)

/-- A recorded solution cell: grid position and position in the solution word. -/
structure SolCell where
  row : Nat
  col : Nat
  index : Nat
deriving DecidableEq

/-- State threaded through the solution-cell assignment loop. -/
structure SolState where
  cg : CellGrid
  cells : List SolCell
  used : List (Nat × Nat)
  usedW : List Nat
  rng : List Nat
deriving DecidableEq

/-- The strict candidate filter: matching letter, unclaimed cell, and no word
through the cell has contributed a solution letter yet. -/
def strictOk (ws : List PlacedWord) (st : SolState) (letter : Char)
    (lc : Nat × Nat) : Bool :=
  (cellAt st.cg lc.1 lc.2).letter == some letter &&
  !(st.used.contains lc) &&
  (wordIndicesAt ws lc.1 lc.2).all (fun wi => !(st.usedW.contains wi))

/-- The first-fallback filter: matching letter on an unclaimed cell. -/
def relaxedOk (st : SolState) (letter : Char) (lc : Nat × Nat) : Bool :=
  (cellAt st.cg lc.1 lc.2).letter == some letter && !(st.used.contains lc)

/-- Claim a candidate cell for solution index i and mark every word through it
as used, as the first two tiers of the assignment loop do. -/
def chooseCell (ws : List PlacedWord) (st : SolState) (lc : Nat × Nat) (i : Nat)
    (rng2 : List Nat) : SolState :=
  { cg := cellUpdate st.cg lc.1 lc.2
      (fun x => { x with isSolutionCell := true, solutionIndex := some i }),
    cells := st.cells ++ [⟨lc.1, lc.2, i⟩],
    used := lc :: st.used,
    usedW := st.usedW ++ wordIndicesAt ws lc.1 lc.2,
    rng := rng2 }

/-- One iteration of the solution-word assignment loop for letter index i:
strict tier, then the relaxed fallback, then the letter-overwriting last
resort on the first unclaimed letter cell. -/
def solStep (ws : List PlacedWord) (lcs : List (Nat × Nat)) (sw : List Char)
    (i : Nat) (st : SolState) : SolState :=
  match (shuffle lcs st.rng).1.filter (strictOk ws st (sw.getD i 'A')) with
  | lc :: _ => chooseCell ws st lc i (shuffle lcs st.rng).2
  | [] =>
    match (shuffle lcs (shuffle lcs st.rng).2).1.filter
        (relaxedOk st (sw.getD i 'A')) with
    | lc :: _ => chooseCell ws st lc i (shuffle lcs (shuffle lcs st.rng).2).2
    | [] =>
      match lcs.find? (fun lc => !(st.used.contains lc)) with
      | some lc =>
        { cg := cellUpdate st.cg lc.1 lc.2
            (fun x => { x with isSolutionCell := true, solutionIndex := some i,
                               letter := some (sw.getD i 'A') }),
          cells := st.cells ++ [⟨lc.1, lc.2, i⟩],
          used := lc :: st.used,
          usedW := st.usedW,
          rng := (shuffle lcs (shuffle lcs st.rng).2).2 }
      | none => { st with rng := (shuffle lcs (shuffle lcs st.rng).2).2 }

/-- The solution-assignment loop: n remaining letters starting at index i. -/
def solGo (ws : List PlacedWord) (lcs : List (Nat × Nat)) (sw : List Char) :
    Nat → Nat → SolState → SolState
  | 0, _, st => st
  | n + 1, i, st => solGo ws lcs sw n (i + 1) (solStep ws lcs sw i st)

/-- The complete output (interface Puzzle). -/
structure Puzzle where
  grid : CellGrid
  placedWords : List PlacedWord
  solutionWord : List Char
  solutionCells : List SolCell
deriving DecidableEq

/-- The solution word generatePuzzle draws first. -/
def genSolWord (sols : List (List Char)) (rng : List Nat) : List Char :=
  sols.getD (randNat rng sols.length).1 []

/-- The attempt loop of generatePuzzle: 8 attempts starting from the empty
grid, run on the stream left after the solution-word draw. -/
def genBest (pool : List WordEntry) (sols : List (List Char)) (rng : List Nat) :
    (GridS × List PlacedWord) × List Nat :=
  attemptsGo pool 8 (createEmptyGrid, []) (randNat rng sols.length).2

/-- The winning layout's placed words, sorted by start cell and numbered. -/
def genNumbered (pool : List WordEntry) (sols : List (List Char))
    (rng : List Nat) : List PlacedWord :=
  assignNumbers (sortPlaced (genBest pool sols rng).1.2)

/-- The cell grid of the winning layout after the numbering pass. -/
def genCellGrid (pool : List WordEntry) (sols : List (List Char))
    (rng : List Nat) : CellGrid :=
  setNumAndClues (buildCellGrid (genBest pool sols rng).1.1)
    (genNumbered pool sols rng)

/-- The state after the full solution-word assignment loop. -/
def genFinal (pool : List WordEntry) (sols : List (List Char))
    (rng : List Nat) : SolState :=
  solGo (genNumbered pool sols rng) (letterCells (genCellGrid pool sols rng))
    (genSolWord sols rng) (genSolWord sols rng).length 0
    { cg := genCellGrid pool sols rng, cells := [], used := [], usedW := [],
      rng := (genBest pool sols rng).2 }

/-- generatePuzzle of the source, parametrised by the word pool, the
solution-word list and the random-draw stream, written as the composition of
its pipeline stages. -/
def generatePuzzle (pool : List WordEntry) (sols : List (List Char))
    (rng : List Nat) : Puzzle :=
  { grid := (genFinal pool sols rng).cg,
    placedWords := genNumbered pool sols rng,
    solutionWord := genSolWord sols rng,
    solutionCells := (genFinal pool sols rng).cells }


/-!
Claim-side predicates, phrased from the specification for comparison with the
executable definitions above.
-/

/-- Number of intersections of a candidate placement: positions along the word
whose target cell is already occupied. -/
def interCount (g : GridS) (word : List Char) (row col : Nat) (dir : Dir) : Nat :=
  (List.range word.length).countP (fun i =>
    (gridGet g (posR row dir i) (posC col dir i)).isSome)

/-- The cell immediately before the word's start is empty or off-grid. -/
def capBeforeFree (g : GridS) (row col : Nat) (dir : Dir) : Prop :=
  match dir with
  | .across => col = 0 ∨ gridGet g row (col - 1) = none
  | .down => row = 0 ∨ gridGet g (row - 1) col = none

/-- The cell immediately after the word's end is empty or off-grid. -/
def capAfterFree (g : GridS) (len : Nat) (row col : Nat) (dir : Dir) : Prop :=
  match dir with
  | .across => GRID_SIZE ≤ col + len ∨ gridGet g row (col + len) = none
  | .down => GRID_SIZE ≤ row + len ∨ gridGet g (row + len) col = none

/-- Per-position legality, as the specification states it: an occupied target
cell must carry the word's letter, must not be owned in the word's own
orientation, and must be owned in the perpendicular orientation; an empty
target cell must have both neighbours along the perpendicular axis empty or
off-grid. -/
def CellOk (g : GridS) (word : List Char) (row col : Nat) (dir : Dir)
    (placed : List PlacedWord) (i : Nat) : Prop :=
  match gridGet g (posR row dir i) (posC col dir i) with
  | some ch =>
    ch = word.getD i 'A' ∧
    occupiedHas placed (posR row dir i) (posC col dir i) dir = false ∧
    occupiedHas placed (posR row dir i) (posC col dir i) dir.other = true
  | none =>
    match dir with
    | .across =>
      (posR row dir i = 0 ∨ gridGet g (posR row dir i - 1) (posC col dir i) = none) ∧
      (GRID_SIZE - 1 ≤ posR row dir i ∨ gridGet g (posR row dir i + 1) (posC col dir i) = none)
    | .down =>
      (posC col dir i = 0 ∨ gridGet g (posR row dir i) (posC col dir i - 1) = none) ∧
      (GRID_SIZE - 1 ≤ posC col dir i ∨ gridGet g (posR row dir i) (posC col dir i + 1) = none)

/-- Declarative legality of a candidate placement, as the specification
phrases it: the word fits inside the grid, both end caps are free, every
position is individually legal, and a non-empty placed list forces at least
one intersection. -/
def PlacementLegal (g : GridS) (word : List Char) (row col : Nat) (dir : Dir)
    (placed : List PlacedWord) : Prop :=
  (∀ i < word.length, posR row dir i < GRID_SIZE ∧ posC col dir i < GRID_SIZE) ∧
  capBeforeFree g row col dir ∧
  capAfterFree g word.length row col dir ∧
  (∀ i < word.length, CellOk g word row col dir placed i) ∧
  (placed ≠ [] → 1 ≤ interCount g word row col dir)

/-- Whether a placed word covers grid cell (r, c). -/
def CoversP (pw : PlacedWord) (r c : Nat) : Prop :=
  ∃ i, i < pw.word.length ∧ posR pw.row pw.direction i = r ∧ posC pw.col pw.direction i = c

/-- The letter a placed word contributes at grid cell (r, c), if any. -/
def letterAtP (pw : PlacedWord) (r c : Nat) : Option Char :=
  match pw.direction with
  | .across =>
    if pw.row = r ∧ pw.col ≤ c ∧ c < pw.col + pw.word.length
    then some (pw.word.getD (c - pw.col) 'A') else none
  | .down =>
    if pw.col = c ∧ pw.row ≤ r ∧ r < pw.row + pw.word.length
    then some (pw.word.getD (r - pw.row) 'A') else none

/-- Placement skeleton of a placed word: everything but the clue text and the
clue number. Two distinct placed words of one puzzle always differ here. -/
def sk (pw : PlacedWord) : List Char × Nat × Nat × Dir :=
  (pw.word, pw.row, pw.col, pw.direction)

/-- Strict row-major order on start cells. -/
def keyLt (a b : Nat × Nat) : Prop :=
  a.1 < b.1 ∨ (a.1 = b.1 ∧ a.2 < b.2)

instance : DecidableRel keyLt := fun a b => by
  unfold keyLt
  infer_instance

/-- A placed word lies entirely inside the 15x15 grid. -/
def InBounds (pw : PlacedWord) : Prop :=
  pw.row < GRID_SIZE ∧ pw.col < GRID_SIZE ∧
  (pw.direction = .across → pw.col + pw.word.length ≤ GRID_SIZE) ∧
  (pw.direction = .down → pw.row + pw.word.length ≤ GRID_SIZE)

/-- The letter grid is a full 15x15 matrix. -/
def GridDims (g : GridS) : Prop :=
  g.length = GRID_SIZE ∧ ∀ r < GRID_SIZE, (g.getD r []).length = GRID_SIZE

/-- The cell grid is a full 15x15 matrix. -/
def CellDims (cg : CellGrid) : Prop :=
  cg.length = GRID_SIZE ∧ ∀ r < GRID_SIZE, (cg.getD r []).length = GRID_SIZE

/-- Structural well-formedness of a returned puzzle: full 15x15 grid, every
placed word inside the grid, every solution cell inside the grid. -/
def WFPuzzle (P : Puzzle) : Prop :=
  P.grid.length = GRID_SIZE ∧ (∀ row ∈ P.grid, row.length = GRID_SIZE) ∧
  (∀ pw ∈ P.placedWords, InBounds pw) ∧
  (∀ sc ∈ P.solutionCells, sc.row < GRID_SIZE ∧ sc.col < GRID_SIZE)

/-- Invariant of the greedy placement loop: the grid renders exactly the
placed words, every placed word is in bounds, skeletons are distinct, words
sharing a cell are perpendicular, and parallel words on adjacent cells always
cross a perpendicular word at one of the two cells. -/
structure LayoutInv (g : GridS) (placed : List PlacedWord) : Prop where
  dims : GridDims g
  inb : ∀ pw ∈ placed, InBounds pw
  render : ∀ pw ∈ placed, ∀ i < pw.word.length,
    gridGet g (posR pw.row pw.direction i) (posC pw.col pw.direction i) =
      some (pw.word.getD i 'A')
  skNodup : (placed.map sk).Nodup
  share : ∀ pw ∈ placed, ∀ qw ∈ placed, sk pw ≠ sk qw →
    ∀ r c, CoversP pw r c → CoversP qw r c → pw.direction ≠ qw.direction
  adjA : ∀ pw ∈ placed, ∀ qw ∈ placed, pw.direction = .across →
    qw.direction = .across → ∀ r c, CoversP pw r c → CoversP qw (r + 1) c →
    ∃ dw ∈ placed, dw.direction = .down ∧ (CoversP dw r c ∨ CoversP dw (r + 1) c)
  adjD : ∀ pw ∈ placed, ∀ qw ∈ placed, pw.direction = .down →
    qw.direction = .down → ∀ r c, CoversP pw r c → CoversP qw r (c + 1) →
    ∃ aw ∈ placed, aw.direction = .across ∧ (CoversP aw r c ∨ CoversP aw r (c + 1))


/-- The placement record bestFold builds for a scan candidate. -/
def mkP (g : GridS) (word : List Char) (t : Dir × Nat × Nat) : Placement :=
  ⟨t.2.1, t.2.2, t.1, score4 g word t.2.1 t.2.2 t.1⟩

/-- Specification relation of one bestFold run: from accumulator b over the
remaining candidate list l, the result is none exactly when nothing was or
becomes legal, and otherwise it is the accumulator or the first legal
candidate attaining the maximum score. -/
def FoldSpec (g : GridS) (word : List Char) (placed : List PlacedWord)
    (l : List (Dir × Nat × Nat)) (b : Option Placement) (R : Option Placement) : Prop :=
  match R with
  | none => b = none ∧ ∀ t ∈ l, canPlaceWord g word t.2.1 t.2.2 t.1 placed = false
  | some p =>
    (∀ t ∈ l, canPlaceWord g word t.2.1 t.2.2 t.1 placed = true →
      score4 g word t.2.1 t.2.2 t.1 ≤ p.score) ∧
    (b = some p ∨
     (∃ l₁ t₀ l₂, l = l₁ ++ t₀ :: l₂ ∧
       canPlaceWord g word t₀.2.1 t₀.2.2 t₀.1 placed = true ∧
       p = mkP g word t₀ ∧
       (∀ t ∈ l₁, canPlaceWord g word t.2.1 t.2.2 t.1 placed = true →
         score4 g word t.2.1 t.2.2 t.1 < p.score) ∧
       (∀ q, b = some q → q.score < p.score)))

/-- Non-strict row-major order on start cells. -/
def keyLe (a b : Nat × Nat) : Prop :=
  a.1 < b.1 ∨ (a.1 = b.1 ∧ a.2 ≤ b.2)

/-- Invariant of the clue-number map during the numbering walk: distinct
keys, counter one past the size, values exactly the range 1..size, and values
ordered like their keys. -/
def MapInv (m : List ((Nat × Nat) × Nat)) (n : Nat) : Prop :=
  (m.map Prod.fst).Nodup ∧
  n = m.length + 1 ∧
  (∀ kv ∈ m, 1 ≤ kv.2 ∧ kv.2 ≤ m.length) ∧
  (∀ kv ∈ m, ∀ kv2 ∈ m, keyLt kv.1 kv2.1 → kv.2 < kv2.2) ∧
  (∀ v, 1 ≤ v → v ≤ m.length → ∃ kv ∈ m, kv.2 = v)

/-- Invariant of the solution-cell assignment loop before processing letter
index i: the claimed cells are exactly the recorded cells in reverse order,
the recorded cells are pairwise distinct letter cells whose indices are below
i and strictly increase along the record, and the grid's solution flags,
solution indices and letters mirror the record. -/
structure SolInv (lcs : List (Nat × Nat)) (sw : List Char) (i : Nat)
    (st : SolState) : Prop where
  dims : CellDims st.cg
  usedEq : st.used = (st.cells.map fun sc => (sc.row, sc.col)).reverse
  usedNodup : st.used.Nodup
  usedSub : st.used ⊆ lcs
  idxLt : ∀ sc ∈ st.cells, sc.index < i
  mono : st.cells.Pairwise fun a b => a.index < b.index
  flag : ∀ r c, (cellAt st.cg r c).isSolutionCell = true ↔
    ∃ sc ∈ st.cells, sc.row = r ∧ sc.col = c
  sidx : ∀ sc ∈ st.cells,
    (cellAt st.cg sc.row sc.col).solutionIndex = some sc.index
  sidxNone : ∀ r c, (cellAt st.cg r c).isSolutionCell = false →
    (cellAt st.cg r c).solutionIndex = none
  letters : ∀ sc ∈ st.cells,
    (cellAt st.cg sc.row sc.col).letter = some (sw.getD sc.index 'A')

/-!
Concrete example inputs used by the witness theorems.
-/

/-- Example word CAT. -/
def exWordCAT : List Char := ['C', 'A', 'T']

/-- Example word BA. -/
def exWordBA : List Char := ['B', 'A']

/-- Example word AB. -/
def exWordAB : List Char := ['A', 'B']

/-- A grid holding only CAT placed across at row 7, column 6. -/
def exGrid1 : GridS := placeWord createEmptyGrid exWordCAT 7 6 .across

/-- The placed-word list matching exGrid1. -/
def exPlaced1 : List PlacedWord := [mkPlaced exWordCAT "c" 7 6 .across]

/-- A two-word pool whose words cross. -/
def exPool1 : List WordEntry := [⟨exWordCAT, "c", "k"⟩, ⟨exWordBA, "b", "k"⟩]

/-- A one-word pool. -/
def exPool2 : List WordEntry := [⟨exWordAB, "a", "k"⟩]

/-- A solution-word list whose only word shares no letter with exPool2. -/
def exSols1 : List (List Char) := [['X', 'Y', 'Z']]

/-- A solution-word list compatible with exPool1. -/
def exSols2 : List (List Char) := [['B', 'C']]

/-!
Basic lemmas about grid reads and writes.
-/

theorem getD_set_ne {α : Type} (l : List α) {i j : Nat} (x : α) (d : α)
    (h : i ≠ j) : (l.set i x).getD j d = l.getD j d := by
  simp [List.getD_eq_getElem?_getD, List.getElem?_set, h]

theorem getD_set_self {α : Type} (l : List α) {i : Nat} (x d : α)
    (h : i < l.length) : (l.set i x).getD i d = x := by
  simp [List.getD_eq_getElem?_getD, List.getElem?_set, h]

theorem gridGet_gridSet_of_ne (g : GridS) {r' c' r c : Nat} (v : Option Char)
    (h : r' ≠ r ∨ c' ≠ c) : gridGet (gridSet g r' c' v) r c = gridGet g r c := by
  unfold gridGet gridSet
  rcases h with h | h
  · rw [getD_set_ne _ _ _ h]
  · by_cases hr : r' = r
    · subst hr
      by_cases hl : r' < g.length
      · rw [getD_set_self _ _ _ hl, getD_set_ne _ _ _ h]
      · have hset : g.set r' ((g.getD r' []).set c' v) = g :=
          List.set_eq_of_length_le (Nat.le_of_not_lt hl)
        rw [hset]
    · rw [getD_set_ne _ _ _ hr]

theorem gridGet_gridSet_self (g : GridS) {r c : Nat} (v : Option Char)
    (hr : r < g.length) (hc : c < (g.getD r []).length) :
    gridGet (gridSet g r c v) r c = v := by
  unfold gridGet gridSet
  rw [getD_set_self _ _ _ hr, getD_set_self _ _ _ hc]

theorem gridDims_createEmptyGrid : GridDims createEmptyGrid := by
  constructor
  · simp [createEmptyGrid]
  · intro r hr
    unfold createEmptyGrid
    rw [List.getD_eq_getElem?_getD, List.getElem?_replicate, if_pos hr]
    simp

theorem gridGet_createEmptyGrid (r c : Nat) : gridGet createEmptyGrid r c = none := by
  unfold gridGet createEmptyGrid
  have hrow : (List.replicate GRID_SIZE (List.replicate GRID_SIZE (none : Option Char))).getD r []
      = List.replicate GRID_SIZE none ∨
      (List.replicate GRID_SIZE (List.replicate GRID_SIZE (none : Option Char))).getD r [] = [] := by
    rw [List.getD_eq_getElem?_getD, List.getElem?_replicate]
    by_cases hr : r < GRID_SIZE
    · left; rw [if_pos hr]; rfl
    · right; rw [if_neg hr]; rfl
  rcases hrow with h | h <;> rw [h]
  · rw [List.getD_eq_getElem?_getD, List.getElem?_replicate]
    by_cases hc : c < GRID_SIZE
    · rw [if_pos hc]; rfl
    · rw [if_neg hc]; rfl
  · rfl

theorem gridDims_gridSet (g : GridS) (r c : Nat) (v : Option Char)
    (h : GridDims g) : GridDims (gridSet g r c v) := by
  obtain ⟨h1, h2⟩ := h
  constructor
  · simpa [gridSet] using h1
  · intro r' hr'
    by_cases hrr : r = r'
    · subst hrr
      have hl : r < g.length := by omega
      unfold gridSet
      rw [getD_set_self _ _ _ hl, List.length_set]
      exact h2 r hr'
    · unfold gridSet
      rw [getD_set_ne _ _ _ hrr]
      exact h2 r' hr'

theorem posNe {row col : Nat} (dir : Dir) {i j : Nat} (h : i ≠ j) :
    posR row dir i ≠ posR row dir j ∨ posC col dir i ≠ posC col dir j := by
  cases dir <;> simp [posR, posC] <;> omega

theorem placeWordGo_get_other (row col : Nat) (dir : Dir) (w : List Char) :
    ∀ (g : GridS) (i : Nat) (r c : Nat),
      (∀ j < w.length, ¬(posR row dir (i + j) = r ∧ posC col dir (i + j) = c)) →
      gridGet (placeWordGo row col dir g i w) r c = gridGet g r c := by
  induction w with
  | nil => intro g i r c h; rfl
  | cons ch rest ih =>
    intro g i r c h
    show gridGet (placeWordGo row col dir _ (i + 1) rest) r c = _
    rw [ih _ (i + 1) r c (fun j hj hand => by
      have hcall := h (j + 1) (by simpa using Nat.succ_lt_succ hj)
      have heq : i + (j + 1) = i + 1 + j := by omega
      rw [heq] at hcall
      exact hcall hand)]
    apply gridGet_gridSet_of_ne
    have h0 := h 0 (by simp)
    simp only [Nat.add_zero] at h0
    by_cases hr : posR row dir i = r
    · right
      intro hc
      exact h0 ⟨hr, hc⟩
    · left
      exact hr

theorem gridDims_placeWordGo (row col : Nat) (dir : Dir) (w : List Char) :
    ∀ (g : GridS) (i : Nat), GridDims g → GridDims (placeWordGo row col dir g i w) := by
  induction w with
  | nil => intro g i h; exact h
  | cons ch rest ih => intro g i h; exact ih _ (i + 1) (gridDims_gridSet _ _ _ _ h)

theorem placeWordGo_get_self (row col : Nat) (dir : Dir) (w : List Char) :
    ∀ (g : GridS) (i : Nat), GridDims g → ∀ j < w.length,
      posR row dir (i + j) < GRID_SIZE → posC col dir (i + j) < GRID_SIZE →
      gridGet (placeWordGo row col dir g i w) (posR row dir (i + j)) (posC col dir (i + j)) =
        some (w.getD j 'A') := by
  induction w with
  | nil => intro g i hg j hj; simp at hj
  | cons ch rest ih =>
    intro g i hg j hj hr hc
    show gridGet (placeWordGo row col dir _ (i + 1) rest) _ _ = _
    rcases j with _ | j
    · simp only [Nat.add_zero] at hr hc ⊢
      rw [placeWordGo_get_other row col dir rest _ (i + 1) _ _ (fun j hj hand => by
        rcases @posNe row col dir (i + 1 + j) i (show i + 1 + j ≠ i by omega)
            with hne | hne
        · exact hne hand.1
        · exact hne hand.2)]
      have hlr : posR row dir i < g.length := by rw [hg.1]; exact hr
      have hlc : posC col dir i < (g.getD (posR row dir i) []).length := by
        rw [hg.2 _ hr]; exact hc
      simpa using gridGet_gridSet_self _ _ hlr hlc
    · have hj' : j < rest.length := by simpa using Nat.lt_of_succ_lt_succ hj
      have heq : i + (j + 1) = (i + 1) + j := by omega
      rw [heq] at hr hc ⊢
      simpa using ih _ (i + 1) (gridDims_gridSet _ _ _ _ hg) j hj' hr hc


/-!
Specification of checkCells and canPlaceWord (claim C1).
-/

theorem checkCells_cons_occupied {grid : GridS} {word : List Char} {row col : Nat}
    {dir : Dir} {placed : List PlacedWord} {i : Nat} {rest : List Nat} {ch : Char}
    (hcell : gridGet grid (posR row dir i) (posC col dir i) = some ch) :
    checkCells grid word row col dir placed (i :: rest) =
      if ch ≠ word.getD i 'A' then none
      else if occupiedHas placed (posR row dir i) (posC col dir i) dir then none
      else if occupiedHas placed (posR row dir i) (posC col dir i) dir.other then
        match checkCells grid word row col dir placed rest with
        | none => none
        | some n => some (n + 1)
      else none := by
  rw [checkCells, hcell]

theorem checkCells_cons_empty {grid : GridS} {word : List Char} {row col : Nat}
    {dir : Dir} {placed : List PlacedWord} {i : Nat} {rest : List Nat}
    (hcell : gridGet grid (posR row dir i) (posC col dir i) = none) :
    checkCells grid word row col dir placed (i :: rest) =
      if badAdj grid row col dir i then none
      else checkCells grid word row col dir placed rest := by
  rw [checkCells, hcell]

theorem cellOk_occupied_iff {g : GridS} {word : List Char} {row col : Nat}
    {dir : Dir} {placed : List PlacedWord} {i : Nat} {ch : Char}
    (hcell : gridGet g (posR row dir i) (posC col dir i) = some ch) :
    CellOk g word row col dir placed i ↔
      (ch = word.getD i 'A' ∧
       occupiedHas placed (posR row dir i) (posC col dir i) dir = false ∧
       occupiedHas placed (posR row dir i) (posC col dir i) dir.other = true) := by
  unfold CellOk
  rw [hcell]

theorem isSome_eq_false_iff {α : Type} (o : Option α) :
    o.isSome = false ↔ o = none := by
  cases o <;> simp

theorem cellOk_empty_iff {g : GridS} {word : List Char} {row col : Nat}
    {dir : Dir} {placed : List PlacedWord} {i : Nat}
    (hcell : gridGet g (posR row dir i) (posC col dir i) = none) :
    CellOk g word row col dir placed i ↔ badAdj g row col dir i = false := by
  unfold CellOk badAdj
  rw [hcell]
  cases dir <;>
    simp only [Bool.or_eq_false_iff, Bool.and_eq_false_iff, decide_eq_false_iff_not,
      Nat.not_lt, Nat.le_zero, isSome_eq_false_iff]

theorem checkCells_eq_some_iff (grid : GridS) (word : List Char) (row col : Nat)
    (dir : Dir) (placed : List PlacedWord) :
    ∀ (l : List Nat) (n : Nat),
      checkCells grid word row col dir placed l = some n ↔
        ((∀ i ∈ l, CellOk grid word row col dir placed i) ∧
         n = l.countP (fun i => (gridGet grid (posR row dir i) (posC col dir i)).isSome)) := by
  intro l
  induction l with
  | nil =>
    intro n
    simp [checkCells, eq_comm]
  | cons i rest ih =>
    intro n
    cases hcell : gridGet grid (posR row dir i) (posC col dir i) with
    | some ch =>
      rw [checkCells_cons_occupied hcell]
      by_cases h1 : ch = word.getD i 'A'
      · rw [if_neg (by simpa using h1)]
        by_cases h2 : occupiedHas placed (posR row dir i) (posC col dir i) dir
        · rw [if_pos h2]
          constructor
          · intro h
            exact absurd h (by simp)
          · rintro ⟨hok, -⟩
            have hoc := (cellOk_occupied_iff hcell).mp (hok i (by simp))
            rw [hoc.2.1] at h2
            exact absurd h2 (by simp)
        · rw [if_neg h2]
          by_cases h3 : occupiedHas placed (posR row dir i) (posC col dir i) dir.other
          · rw [if_pos h3]
            cases hrec : checkCells grid word row col dir placed rest with
            | none =>
              constructor
              · intro h
                exact absurd h (by simp)
              · rintro ⟨hok, hn⟩
                have hrest : ∀ j ∈ rest, CellOk grid word row col dir placed j :=
                  fun j hj => hok j (by simp [hj])
                have hsome := (ih (rest.countP
                  (fun i => (gridGet grid (posR row dir i) (posC col dir i)).isSome))).mpr
                  ⟨hrest, rfl⟩
                rw [hsome] at hrec
                exact absurd hrec (by simp)
            | some m =>
              have hm := (ih m).mp hrec
              constructor
              · intro h
                have hn : n = m + 1 := by
                  injection h with h4
                  omega
                refine ⟨?_, ?_⟩
                · intro j hj
                  rcases List.mem_cons.mp hj with hj | hj
                  · subst hj
                    exact (cellOk_occupied_iff hcell).mpr
                      ⟨h1, by simpa using h2, by simpa using h3⟩
                  · exact hm.1 j hj
                · rw [List.countP_cons]
                  have h5 := hm.2
                  simp only [hcell, Option.isSome_some, if_true]
                  omega
              · rintro ⟨hok, hn⟩
                rw [List.countP_cons] at hn
                simp only [hcell, Option.isSome_some, if_true] at hn
                have h5 := hm.2
                have h6 : n = m + 1 := by omega
                rw [h6]
          · rw [if_neg h3]
            constructor
            · intro h
              exact absurd h (by simp)
            · rintro ⟨hok, -⟩
              have hoc := (cellOk_occupied_iff hcell).mp (hok i (by simp))
              exact absurd hoc.2.2 (by simpa using h3)
      · rw [if_pos (by simpa using h1)]
        constructor
        · intro h
          exact absurd h (by simp)
        · rintro ⟨hok, -⟩
          have hoc := (cellOk_occupied_iff hcell).mp (hok i (by simp))
          exact absurd hoc.1 h1
    | none =>
      rw [checkCells_cons_empty hcell]
      by_cases hb : badAdj grid row col dir i
      · rw [if_pos hb]
        constructor
        · intro h
          exact absurd h (by simp)
        · rintro ⟨hok, -⟩
          have he := (cellOk_empty_iff hcell).mp (hok i (by simp))
          rw [he] at hb
          exact absurd hb (by simp)
      · rw [if_neg hb]
        rw [ih n]
        have hcount : (i :: rest).countP
            (fun i => (gridGet grid (posR row dir i) (posC col dir i)).isSome) =
            rest.countP
            (fun i => (gridGet grid (posR row dir i) (posC col dir i)).isSome) := by
          rw [List.countP_cons]
          simp [hcell]
        rw [hcount]
        constructor
        · rintro ⟨hrest, hn⟩
          refine ⟨?_, hn⟩
          intro j hj
          rcases List.mem_cons.mp hj with hj | hj
          · subst hj
            exact (cellOk_empty_iff hcell).mpr (by simpa using hb)
          · exact hrest j hj
        · rintro ⟨hok, hn⟩
          exact ⟨fun j hj => hok j (by simp [hj]), hn⟩


theorem canPlaceWord_iff_legal (g : GridS) (word : List Char) (row col : Nat)
    (dir : Dir) (placed : List PlacedWord)
    (hr : row < GRID_SIZE) (hc : col < GRID_SIZE) :
    canPlaceWord g word row col dir placed = true ↔
      PlacementLegal g word row col dir placed := by
  unfold canPlaceWord PlacementLegal capBeforeFree capAfterFree
  cases dir with
  | across =>
    dsimp only
    constructor
    · intro h
      by_cases h1 : GRID_SIZE < col + word.length
      · rw [if_pos h1] at h
        exact absurd (show (false : Bool) = true from h) (by simp)
      rw [if_neg h1] at h
      by_cases h2 : 0 < col ∧ (gridGet g row (col - 1)).isSome
      · rw [if_pos h2] at h
        exact absurd (show (false : Bool) = true from h) (by simp)
      rw [if_neg h2] at h
      by_cases h3 : col + word.length < GRID_SIZE ∧ (gridGet g row (col + word.length)).isSome
      · rw [if_pos h3] at h
        exact absurd (show (false : Bool) = true from h) (by simp)
      rw [if_neg h3] at h
      cases hck : checkCells g word row col .across placed (List.range word.length) with
      | none =>
        rw [hck] at h
        exact absurd (show (false : Bool) = true from h) (by simp)
      | some n =>
        rw [hck] at h
        replace h : (if placed ≠ [] ∧ n = 0 then false else true) = true := h
        have hcond : ¬(placed ≠ [] ∧ n = 0) := by
          intro hcontra
          rw [if_pos hcontra] at h
          exact absurd h (by simp)
        obtain ⟨hok, hn⟩ := (checkCells_eq_some_iff g word row col .across placed _ n).mp hck
        refine ⟨?_, ?_, ?_, ?_, ?_⟩
        · intro i hi
          simp only [posR, posC]
          omega
        · by_cases h0 : col = 0
          · exact Or.inl h0
          · right
            by_contra hne
            exact h2 ⟨by omega, Option.isSome_iff_ne_none.mpr hne⟩
        · by_cases h0 : GRID_SIZE ≤ col + word.length
          · exact Or.inl h0
          · right
            by_contra hne
            exact h3 ⟨by omega, Option.isSome_iff_ne_none.mpr hne⟩
        · intro i hi
          exact hok i (List.mem_range.mpr hi)
        · intro hpl
          have hn0 : n ≠ 0 := fun h0 => hcond ⟨hpl, h0⟩
          unfold interCount
          omega
    · rintro ⟨hfit, hcapb, hcapa, hok, hinter⟩
      have h1 : ¬(GRID_SIZE < col + word.length) := by
        by_cases hlen : word.length = 0
        · omega
        · have hlast := (hfit (word.length - 1) (by omega)).2
          simp only [posC] at hlast
          omega
      rw [if_neg h1]
      have h2 : ¬(0 < col ∧ (gridGet g row (col - 1)).isSome) := by
        rintro ⟨hpos, hsome⟩
        rcases hcapb with h0 | h0
        · omega
        · rw [h0] at hsome
          exact absurd hsome (by simp)
      rw [if_neg h2]
      have h3 : ¬(col + word.length < GRID_SIZE ∧ (gridGet g row (col + word.length)).isSome) := by
        rintro ⟨hpos, hsome⟩
        rcases hcapa with h0 | h0
        · omega
        · rw [h0] at hsome
          exact absurd hsome (by simp)
      rw [if_neg h3]
      have hck := (checkCells_eq_some_iff g word row col .across placed
        (List.range word.length)
        ((List.range word.length).countP
          (fun i => (gridGet g (posR row .across i) (posC col .across i)).isSome))).mpr
        ⟨fun i hi => hok i (List.mem_range.mp hi), rfl⟩
      rw [hck]
      have hcond : ¬(placed ≠ [] ∧
          (List.range word.length).countP
            (fun i => (gridGet g (posR row .across i) (posC col .across i)).isSome) = 0) := by
        rintro ⟨hpl, h0⟩
        have hge := hinter hpl
        unfold interCount at hge
        omega
      show (if placed ≠ [] ∧
          (List.range word.length).countP
            (fun i => (gridGet g (posR row .across i) (posC col .across i)).isSome) = 0
        then false else true) = true
      rw [if_neg hcond]
  | down =>
    dsimp only
    constructor
    · intro h
      by_cases h1 : GRID_SIZE < row + word.length
      · rw [if_pos h1] at h
        exact absurd (show (false : Bool) = true from h) (by simp)
      rw [if_neg h1] at h
      by_cases h2 : 0 < row ∧ (gridGet g (row - 1) col).isSome
      · rw [if_pos h2] at h
        exact absurd (show (false : Bool) = true from h) (by simp)
      rw [if_neg h2] at h
      by_cases h3 : row + word.length < GRID_SIZE ∧ (gridGet g (row + word.length) col).isSome
      · rw [if_pos h3] at h
        exact absurd (show (false : Bool) = true from h) (by simp)
      rw [if_neg h3] at h
      cases hck : checkCells g word row col .down placed (List.range word.length) with
      | none =>
        rw [hck] at h
        exact absurd (show (false : Bool) = true from h) (by simp)
      | some n =>
        rw [hck] at h
        replace h : (if placed ≠ [] ∧ n = 0 then false else true) = true := h
        have hcond : ¬(placed ≠ [] ∧ n = 0) := by
          intro hcontra
          rw [if_pos hcontra] at h
          exact absurd h (by simp)
        obtain ⟨hok, hn⟩ := (checkCells_eq_some_iff g word row col .down placed _ n).mp hck
        refine ⟨?_, ?_, ?_, ?_, ?_⟩
        · intro i hi
          simp only [posR, posC]
          omega
        · by_cases h0 : row = 0
          · exact Or.inl h0
          · right
            by_contra hne
            exact h2 ⟨by omega, Option.isSome_iff_ne_none.mpr hne⟩
        · by_cases h0 : GRID_SIZE ≤ row + word.length
          · exact Or.inl h0
          · right
            by_contra hne
            exact h3 ⟨by omega, Option.isSome_iff_ne_none.mpr hne⟩
        · intro i hi
          exact hok i (List.mem_range.mpr hi)
        · intro hpl
          have hn0 : n ≠ 0 := fun h0 => hcond ⟨hpl, h0⟩
          unfold interCount
          omega
    · rintro ⟨hfit, hcapb, hcapa, hok, hinter⟩
      have h1 : ¬(GRID_SIZE < row + word.length) := by
        by_cases hlen : word.length = 0
        · omega
        · have hlast := (hfit (word.length - 1) (by omega)).1
          simp only [posR] at hlast
          omega
      rw [if_neg h1]
      have h2 : ¬(0 < row ∧ (gridGet g (row - 1) col).isSome) := by
        rintro ⟨hpos, hsome⟩
        rcases hcapb with h0 | h0
        · omega
        · rw [h0] at hsome
          exact absurd hsome (by simp)
      rw [if_neg h2]
      have h3 : ¬(row + word.length < GRID_SIZE ∧ (gridGet g (row + word.length) col).isSome) := by
        rintro ⟨hpos, hsome⟩
        rcases hcapa with h0 | h0
        · omega
        · rw [h0] at hsome
          exact absurd hsome (by simp)
      rw [if_neg h3]
      have hck := (checkCells_eq_some_iff g word row col .down placed
        (List.range word.length)
        ((List.range word.length).countP
          (fun i => (gridGet g (posR row .down i) (posC col .down i)).isSome))).mpr
        ⟨fun i hi => hok i (List.mem_range.mp hi), rfl⟩
      rw [hck]
      have hcond : ¬(placed ≠ [] ∧
          (List.range word.length).countP
            (fun i => (gridGet g (posR row .down i) (posC col .down i)).isSome) = 0) := by
        rintro ⟨hpl, h0⟩
        have hge := hinter hpl
        unfold interCount at hge
        omega
      show (if placed ≠ [] ∧
          (List.range word.length).countP
            (fun i => (gridGet g (posR row .down i) (posC col .down i)).isSome) = 0
        then false else true) = true
      rw [if_neg hcond]


/-!
Score and placement-search lemmas (claims C5 and C6).
-/

theorem matchCount_eq_interCount (g : GridS) (word : List Char) (row col : Nat)
    (dir : Dir) (placed : List PlacedWord)
    (h : ∀ i < word.length, CellOk g word row col dir placed i) :
    matchCount g word row col dir = interCount g word row col dir := by
  unfold matchCount interCount
  apply List.countP_congr
  intro i hi
  have hok := h i (List.mem_range.mp hi)
  cases hcell : gridGet g (posR row dir i) (posC col dir i) with
  | none => simp [hcell]
  | some ch =>
    have hch := (cellOk_occupied_iff hcell).mp hok
    simp [hcell, hch.1]

theorem bestFold_foldSpec (g : GridS) (word : List Char) (placed : List PlacedWord) :
    ∀ (l : List (Dir × Nat × Nat)) (b : Option Placement),
      FoldSpec g word placed l b (bestFold g word placed l b) := by
  intro l
  induction l with
  | nil =>
    intro b
    cases b with
    | none => exact ⟨rfl, by simp⟩
    | some q => exact ⟨by simp, Or.inl rfl⟩
  | cons t rest ih =>
    intro b
    by_cases hlegal : canPlaceWord g word t.2.1 t.2.2 t.1 placed = true
    · have hstep : bestFold g word placed (t :: rest) b =
          bestFold g word placed rest
            (match b with
             | none => some (mkP g word t)
             | some q => if q.score < score4 g word t.2.1 t.2.2 t.1
                 then some (mkP g word t) else some q) := by
        rw [bestFold, if_pos hlegal]
        rfl
      rw [hstep]
      cases b with
      | none =>
        show FoldSpec g word placed (t :: rest) none
          (bestFold g word placed rest (some (mkP g word t)))
        have hspec := ih (some (mkP g word t))
        cases hres : bestFold g word placed rest (some (mkP g word t)) with
        | none =>
          rw [hres] at hspec
          exact absurd hspec.1 (by simp)
        | some p =>
          rw [hres] at hspec
          obtain ⟨hmax, hdisj⟩ := hspec
          have hts : score4 g word t.2.1 t.2.2 t.1 ≤ p.score := by
            rcases hdisj with hb | ⟨l₁, t₀, l₂, heq, hleg0, hp, hpre, hbnd⟩
            · have : mkP g word t = p := by injection hb
              rw [← this]
              exact le_rfl
            · exact le_of_lt (hbnd _ rfl)
          constructor
          · intro t' ht' hleg'
            rcases List.mem_cons.mp ht' with ht' | ht'
            · subst ht'
              exact hts
            · exact hmax t' ht' hleg'
          · right
            rcases hdisj with hb | ⟨l₁, t₀, l₂, heq, hleg0, hp, hpre, hbnd⟩
            · refine ⟨[], t, rest, by simp, hlegal, ?_, by simp, by simp⟩
              injection hb with hb
              exact hb.symm
            · refine ⟨t :: l₁, t₀, l₂, by rw [heq]; rfl, hleg0, hp, ?_, by simp⟩
              intro t' ht' hleg'
              rcases List.mem_cons.mp ht' with ht' | ht'
              · subst ht'
                exact hbnd _ rfl
              · exact hpre t' ht' hleg'
      | some q0 =>
        show FoldSpec g word placed (t :: rest) (some q0)
          (bestFold g word placed rest
            (if q0.score < score4 g word t.2.1 t.2.2 t.1
             then some (mkP g word t) else some q0))
        by_cases hrep : q0.score < score4 g word t.2.1 t.2.2 t.1
        · rw [if_pos hrep]
          have hspec := ih (some (mkP g word t))
          cases hres : bestFold g word placed rest (some (mkP g word t)) with
          | none =>
            rw [hres] at hspec
            exact absurd hspec.1 (by simp)
          | some p =>
            rw [hres] at hspec
            obtain ⟨hmax, hdisj⟩ := hspec
            have hts : score4 g word t.2.1 t.2.2 t.1 ≤ p.score := by
              rcases hdisj with hb | ⟨l₁, t₀, l₂, heq, hleg0, hp, hpre, hbnd⟩
              · have : mkP g word t = p := by injection hb
                rw [← this]
                exact le_rfl
              · exact le_of_lt (hbnd _ rfl)
            constructor
            · intro t' ht' hleg'
              rcases List.mem_cons.mp ht' with ht' | ht'
              · subst ht'
                exact hts
              · exact hmax t' ht' hleg'
            · right
              rcases hdisj with hb | ⟨l₁, t₀, l₂, heq, hleg0, hp, hpre, hbnd⟩
              · refine ⟨[], t, rest, by simp, hlegal, ?_, by simp, ?_⟩
                · injection hb with hb
                  exact hb.symm
                · intro q hq
                  injection hq with hq
                  subst hq
                  have : mkP g word t = p := by injection hb
                  rw [← this]
                  exact hrep
              · refine ⟨t :: l₁, t₀, l₂, by rw [heq]; rfl, hleg0, hp, ?_, ?_⟩
                · intro t' ht' hleg'
                  rcases List.mem_cons.mp ht' with ht' | ht'
                  · subst ht'
                    exact hbnd _ rfl
                  · exact hpre t' ht' hleg'
                · intro q hq
                  injection hq with hq
                  subst hq
                  exact lt_trans hrep (hbnd _ rfl)
        · rw [if_neg hrep]
          have hspec := ih (some q0)
          cases hres : bestFold g word placed rest (some q0) with
          | none =>
            rw [hres] at hspec
            exact absurd hspec.1 (by simp)
          | some p =>
            rw [hres] at hspec
            obtain ⟨hmax, hdisj⟩ := hspec
            have hq0 : q0.score ≤ p.score := by
              rcases hdisj with hb | ⟨l₁, t₀, l₂, heq, hleg0, hp, hpre, hbnd⟩
              · have hq : q0 = p := by injection hb
                rw [hq]
              · exact le_of_lt (hbnd _ rfl)
            have hts : score4 g word t.2.1 t.2.2 t.1 ≤ p.score :=
              le_trans (not_lt.mp hrep) hq0
            constructor
            · intro t' ht' hleg'
              rcases List.mem_cons.mp ht' with ht' | ht'
              · subst ht'
                exact hts
              · exact hmax t' ht' hleg'
            · rcases hdisj with hb | ⟨l₁, t₀, l₂, heq, hleg0, hp, hpre, hbnd⟩
              · exact Or.inl hb
              · right
                refine ⟨t :: l₁, t₀, l₂, by rw [heq]; rfl, hleg0, hp, ?_, hbnd⟩
                intro t' ht' hleg'
                rcases List.mem_cons.mp ht' with ht' | ht'
                · subst ht'
                  exact lt_of_le_of_lt (not_lt.mp hrep) (hbnd _ rfl)
                · exact hpre t' ht' hleg'
    · rw [show bestFold g word placed (t :: rest) b = bestFold g word placed rest b from by
        rw [bestFold, if_neg hlegal]]
      have hspec := ih b
      cases hres : bestFold g word placed rest b with
      | none =>
        rw [hres] at hspec
        refine ⟨hspec.1, ?_⟩
        intro t' ht'
        rcases List.mem_cons.mp ht' with ht' | ht'
        · subst ht'
          exact Bool.eq_false_iff.mpr hlegal
        · exact hspec.2 t' ht'
      | some p =>
        rw [hres] at hspec
        obtain ⟨hmax, hdisj⟩ := hspec
        constructor
        · intro t' ht' hleg'
          rcases List.mem_cons.mp ht' with ht' | ht'
          · subst ht'
            exact absurd hleg' hlegal
          · exact hmax t' ht' hleg'
        · rcases hdisj with hb | ⟨l₁, t₀, l₂, heq, hleg0, hp, hpre, hbnd⟩
          · exact Or.inl hb
          · right
            refine ⟨t :: l₁, t₀, l₂, by rw [heq]; rfl, hleg0, hp, ?_, hbnd⟩
            intro t' ht' hleg'
            rcases List.mem_cons.mp ht' with ht' | ht'
            · subst ht'
              exact absurd hleg' hlegal
            · exact hpre t' ht' hleg'

theorem findBestPlacement_none_iff (g : GridS) (word : List Char)
    (placed : List PlacedWord) :
    findBestPlacement g word placed = none ↔
      ∀ t ∈ scanOrder word.length, canPlaceWord g word t.2.1 t.2.2 t.1 placed = false := by
  have hspec := bestFold_foldSpec g word placed (scanOrder word.length) none
  unfold findBestPlacement
  cases hres : bestFold g word placed (scanOrder word.length) none with
  | none =>
    rw [hres] at hspec
    simp only [true_iff]
    exact hspec.2
  | some p =>
    rw [hres] at hspec
    obtain ⟨hmax, hdisj⟩ := hspec
    rcases hdisj with hb | ⟨l₁, t₀, l₂, heq, hleg0, hp, hpre, hbnd⟩
    · exact absurd hb (by simp)
    · constructor
      · intro h
        exact absurd h (by simp)
      · intro hall
        have := hall t₀ (by rw [heq]; simp)
        rw [hleg0] at this
        exact absurd this (by simp)

theorem findBestPlacement_some_spec (g : GridS) (word : List Char)
    (placed : List PlacedWord) (p : Placement)
    (h : findBestPlacement g word placed = some p) :
    ∃ l₁ l₂, scanOrder word.length = l₁ ++ (p.direction, p.row, p.col) :: l₂ ∧
      canPlaceWord g word p.row p.col p.direction placed = true ∧
      p.score = score4 g word p.row p.col p.direction ∧
      (∀ t ∈ scanOrder word.length,
        canPlaceWord g word t.2.1 t.2.2 t.1 placed = true →
        score4 g word t.2.1 t.2.2 t.1 ≤ p.score) ∧
      (∀ t ∈ l₁, canPlaceWord g word t.2.1 t.2.2 t.1 placed = true →
        score4 g word t.2.1 t.2.2 t.1 < p.score) := by
  have hspec := bestFold_foldSpec g word placed (scanOrder word.length) none
  unfold findBestPlacement at h
  rw [h] at hspec
  obtain ⟨hmax, hdisj⟩ := hspec
  rcases hdisj with hb | ⟨l₁, t₀, l₂, heq, hleg0, hp, hpre, hbnd⟩
  · exact absurd hb (by simp)
  · subst hp
    refine ⟨l₁, l₂, ?_, hleg0, rfl, hmax, hpre⟩
    rw [heq]
    rfl

theorem mem_scanOrder {len : Nat} {t : Dir × Nat × Nat} (h : t ∈ scanOrder len) :
    (t.1 = .across ∧ t.2.1 < GRID_SIZE ∧ t.2.2 + len ≤ GRID_SIZE) ∨
    (t.1 = .down ∧ t.2.1 + len ≤ GRID_SIZE ∧ t.2.2 < GRID_SIZE) := by
  unfold scanOrder at h
  rcases List.mem_append.mp h with h | h <;>
    simp only [List.mem_flatMap, List.mem_map, List.mem_range] at h
  · obtain ⟨r, hr, c, hc, heq⟩ := h
    left
    rw [← heq]
    dsimp only
    refine ⟨rfl, hr, ?_⟩
    have hgs : GRID_SIZE = 15 := rfl
    omega
  · obtain ⟨r, hr, c, hc, heq⟩ := h
    right
    rw [← heq]
    dsimp only
    refine ⟨rfl, ?_, hc⟩
    have hgs : GRID_SIZE = 15 := rfl
    omega


/-!
Bridge lemmas between executable occupancy tests and their propositional
counterparts.
-/

theorem coversB_iff (pw : PlacedWord) (r c : Nat) :
    coversB pw r c = true ↔ CoversP pw r c := by
  unfold coversB CoversP
  rw [List.any_eq_true]
  constructor
  · rintro ⟨i, hi, hp⟩
    rw [Bool.and_eq_true] at hp
    exact ⟨i, List.mem_range.mp hi, by simpa using hp.1, by simpa using hp.2⟩
  · rintro ⟨i, hi, hr, hc⟩
    refine ⟨i, List.mem_range.mpr hi, ?_⟩
    rw [Bool.and_eq_true]
    exact ⟨by simp [hr], by simp [hc]⟩

theorem occupiedHas_iff (placed : List PlacedWord) (r c : Nat) (d : Dir) :
    occupiedHas placed r c d = true ↔
      ∃ pw ∈ placed, pw.direction = d ∧ CoversP pw r c := by
  unfold occupiedHas
  rw [List.any_eq_true]
  constructor
  · rintro ⟨pw, hmem, hp⟩
    rw [Bool.and_eq_true] at hp
    exact ⟨pw, hmem, by simpa using hp.1, (coversB_iff pw r c).mp hp.2⟩
  · rintro ⟨pw, hmem, hd, hcov⟩
    refine ⟨pw, hmem, ?_⟩
    rw [Bool.and_eq_true]
    exact ⟨by simp [hd], (coversB_iff pw r c).mpr hcov⟩

theorem coversP_lt {pw : PlacedWord} {r c : Nat} (hin : InBounds pw)
    (h : CoversP pw r c) : r < GRID_SIZE ∧ c < GRID_SIZE := by
  obtain ⟨i, hi, hr, hc⟩ := h
  obtain ⟨h1, h2, h3, h4⟩ := hin
  cases hd : pw.direction <;> rw [hd] at hr hc <;> simp only [posR, posC] at hr hc
  · have := h3 hd
    omega
  · have := h4 hd
    omega

theorem letterAtP_eq {pw : PlacedWord} {r c i : Nat} (hi : i < pw.word.length)
    (hr : posR pw.row pw.direction i = r) (hc : posC pw.col pw.direction i = c) :
    letterAtP pw r c = some (pw.word.getD i 'A') := by
  unfold letterAtP
  cases hd : pw.direction with
  | across =>
    rw [hd] at hr hc
    simp only [posR] at hr
    simp only [posC] at hc
    rw [if_pos (show pw.row = r ∧ pw.col ≤ c ∧ c < pw.col + pw.word.length by omega)]
    have hci : c - pw.col = i := by omega
    rw [hci]
  | down =>
    rw [hd] at hr hc
    simp only [posR] at hr
    simp only [posC] at hc
    rw [if_pos (show pw.col = c ∧ pw.row ≤ r ∧ r < pw.row + pw.word.length by omega)]
    have hri : r - pw.row = i := by omega
    rw [hri]

theorem sk_fields {pw qw : PlacedWord} (h : sk pw = sk qw) :
    pw.word = qw.word ∧ pw.row = qw.row ∧ pw.col = qw.col ∧
      pw.direction = qw.direction := by
  unfold sk at h
  exact ⟨congrArg (fun t => t.1) h, congrArg (fun t => t.2.1) h,
    congrArg (fun t => t.2.2.1) h, congrArg (fun t => t.2.2.2) h⟩

theorem sk_coversP {pw qw : PlacedWord} (h : sk pw = sk qw) (r c : Nat) :
    CoversP pw r c ↔ CoversP qw r c := by
  obtain ⟨hw, hr, hc, hd⟩ := sk_fields h
  unfold CoversP
  rw [hw, hr, hc, hd]

theorem sk_letterAtP {pw qw : PlacedWord} (h : sk pw = sk qw) (r c : Nat) :
    letterAtP pw r c = letterAtP qw r c := by
  obtain ⟨hw, hr, hc, hd⟩ := sk_fields h
  unfold letterAtP
  rw [hw, hr, hc, hd]

theorem sk_inBounds {pw qw : PlacedWord} (h : sk pw = sk qw) :
    InBounds pw ↔ InBounds qw := by
  obtain ⟨hw, hr, hc, hd⟩ := sk_fields h
  unfold InBounds
  rw [hw, hr, hc, hd]

theorem interCount_pos_len {g : GridS} {word : List Char} {row col : Nat}
    {dir : Dir} (h : 1 ≤ interCount g word row col dir) : 1 ≤ word.length := by
  unfold interCount at h
  have hcle : (List.range word.length).countP
      (fun i => (gridGet g (posR row dir i) (posC col dir i)).isSome) ≤
      (List.range word.length).length := List.countP_le_length _
  rw [List.length_range] at hcle
  omega

theorem render_letterAtP {g : GridS} {placed : List PlacedWord}
    (inv : LayoutInv g placed) {pw : PlacedWord} (hmem : pw ∈ placed)
    {r c : Nat} (hcov : CoversP pw r c) :
    gridGet g r c = letterAtP pw r c := by
  obtain ⟨i, hi, hr, hc⟩ := hcov
  rw [letterAtP_eq hi hr hc, ← hr, ← hc]
  exact inv.render pw hmem i hi


/-!
Preservation of the layout invariant by one committed placement.
-/

theorem render_contra_none {g : GridS} {placed : List PlacedWord}
    (inv : LayoutInv g placed) {pw : PlacedWord} (hpw : pw ∈ placed)
    {r c : Nat} (hcov : CoversP pw r c) (hnone : gridGet g r c = none) : False := by
  obtain ⟨i0, hi0, hr0, hc0⟩ := hcov
  have hrd := inv.render pw hpw i0 hi0
  rw [hr0, hc0, hnone] at hrd
  exact Option.noConfusion hrd

theorem layoutInv_step {g : GridS} {placed : List PlacedWord}
    (inv : LayoutInv g placed) (word : List Char) (clue : String)
    (row col : Nat) (dir : Dir)
    (hcan : canPlaceWord g word row col dir placed = true)
    (hr : row < GRID_SIZE) (hc : col < GRID_SIZE) :
    LayoutInv (placeWord g word row col dir)
      (placed ++ [mkPlaced word clue row col dir]) := by
  obtain ⟨hfit, hcapb, hcapa, hok, hinter⟩ :=
    (canPlaceWord_iff_legal g word row col dir placed hr hc).mp hcan
  have hlen1 : placed ≠ [] → 1 ≤ word.length := fun h => interCount_pos_len (hinter h)
  have hinb_new : InBounds (mkPlaced word clue row col dir) := by
    show row < GRID_SIZE ∧ col < GRID_SIZE ∧
      (dir = .across → col + word.length ≤ GRID_SIZE) ∧
      (dir = .down → row + word.length ≤ GRID_SIZE)
    refine ⟨hr, hc, ?_, ?_⟩
    · intro hd
      subst hd
      by_cases h0 : word.length = 0
      · have hgs : GRID_SIZE = 15 := rfl
        omega
      · have hlast := (hfit (word.length - 1) (by omega)).2
        simp only [posC] at hlast
        omega
    · intro hd
      subst hd
      by_cases h0 : word.length = 0
      · have hgs : GRID_SIZE = 15 := rfl
        omega
      · have hlast := (hfit (word.length - 1) (by omega)).1
        simp only [posR] at hlast
        omega
  have hget_new : ∀ i < word.length,
      gridGet (placeWord g word row col dir) (posR row dir i) (posC col dir i) =
        some (word.getD i 'A') := by
    intro i hi
    have hres := placeWordGo_get_self row col dir word g 0 inv.dims i hi
      (by simpa using (hfit i hi).1) (by simpa using (hfit i hi).2)
    simpa using hres
  have hget_old : ∀ r' c',
      (∀ i < word.length, ¬(posR row dir i = r' ∧ posC col dir i = c')) →
      gridGet (placeWord g word row col dir) r' c' = gridGet g r' c' := by
    intro r' c' h
    exact placeWordGo_get_other row col dir word g 0 r' c' (by
      intro j hj
      simpa using h j hj)
  have hcov_new : ∀ r' c', CoversP (mkPlaced word clue row col dir) r' c' →
      ∃ j, j < word.length ∧ posR row dir j = r' ∧ posC col dir j = c' :=
    fun r' c' h => h
  refine ⟨?_, ?_, ?_, ?_, ?_, ?_, ?_⟩
  · exact gridDims_placeWordGo row col dir word g 0 inv.dims
  · intro pw hpw
    rcases List.mem_append.mp hpw with hpwm | hpwm
    · exact inv.inb pw hpwm
    · rw [List.mem_singleton.mp hpwm]
      exact hinb_new
  · intro pw hpw i hi
    rcases List.mem_append.mp hpw with hpwm | hpwm
    · by_cases hcov : ∃ j, j < word.length ∧
          posR row dir j = posR pw.row pw.direction i ∧
          posC col dir j = posC pw.col pw.direction i
      · obtain ⟨j, hj, hjr, hjc⟩ := hcov
        have hnewval := hget_new j hj
        rw [hjr, hjc] at hnewval
        have holdval := inv.render pw hpwm i hi
        have hcell : gridGet g (posR row dir j) (posC col dir j) =
            some (pw.word.getD i 'A') := by
          rw [hjr, hjc]
          exact holdval
        have hletter := ((cellOk_occupied_iff hcell).mp (hok j hj)).1
        rw [hnewval, ← hletter]
      · push_neg at hcov
        rw [hget_old _ _ (fun j hj hand => hcov j hj hand.1 hand.2)]
        exact inv.render pw hpwm i hi
    · have hpweq := List.mem_singleton.mp hpwm
      subst hpweq
      exact hget_new i hi
  · rw [List.map_append]
    rw [List.nodup_append]
    refine ⟨inv.skNodup, by simp, ?_⟩
    intro x hx hx'
    simp only [List.map_cons, List.map_nil, List.mem_singleton] at hx'
    subst hx'
    obtain ⟨pw, hpw, hskeq⟩ := List.mem_map.mp hx
    have hlen : 1 ≤ word.length := hlen1 (List.ne_nil_of_mem hpw)
    obtain ⟨hw, hrw, hcw, hdw⟩ := sk_fields hskeq
    have hcov0 : CoversP pw (posR row dir 0) (posC col dir 0) := by
      refine ⟨0, ?_, ?_, ?_⟩
      · rw [hw]
        exact hlen
      · rw [hrw, hdw]
        rfl
      · rw [hcw, hdw]
        rfl
    cases hcell0 : gridGet g (posR row dir 0) (posC col dir 0) with
    | none => exact render_contra_none inv hpw hcov0 hcell0
    | some ch =>
      have hoc := (cellOk_occupied_iff hcell0).mp (hok 0 hlen)
      have htrue := (occupiedHas_iff placed (posR row dir 0) (posC col dir 0) dir).mpr
        ⟨pw, hpw, by rw [hdw]; rfl, hcov0⟩
      rw [hoc.2.1] at htrue
      exact Bool.noConfusion htrue
  · intro pw hpw qw hqw hske r' c' hcovp hcovq
    rcases List.mem_append.mp hpw with hpwm | hpwm <;>
      rcases List.mem_append.mp hqw with hqwm | hqwm
    · exact inv.share pw hpwm qw hqwm hske r' c' hcovp hcovq
    · rw [List.mem_singleton.mp hqwm] at hcovq ⊢
      obtain ⟨j, hj, hjr, hjc⟩ := hcov_new r' c' hcovq
      cases hcell : gridGet g r' c' with
      | none => exact absurd hcell (by
          intro hcell
          exact render_contra_none inv hpwm hcovp hcell)
      | some ch =>
        rw [← hjr, ← hjc] at hcell
        have hoc := (cellOk_occupied_iff hcell).mp (hok j hj)
        intro hdeq
        have htrue := (occupiedHas_iff placed (posR row dir j) (posC col dir j) dir).mpr
          ⟨pw, hpwm, by rw [hdeq]; rfl, by rw [hjr, hjc]; exact hcovp⟩
        rw [hoc.2.1] at htrue
        exact Bool.noConfusion htrue
    · rw [List.mem_singleton.mp hpwm] at hcovp ⊢
      obtain ⟨j, hj, hjr, hjc⟩ := hcov_new r' c' hcovp
      cases hcell : gridGet g r' c' with
      | none => exact absurd hcell (by
          intro hcell
          exact render_contra_none inv hqwm hcovq hcell)
      | some ch =>
        rw [← hjr, ← hjc] at hcell
        have hoc := (cellOk_occupied_iff hcell).mp (hok j hj)
        intro hdeq
        have htrue := (occupiedHas_iff placed (posR row dir j) (posC col dir j) dir).mpr
          ⟨qw, hqwm, by rw [← hdeq]; rfl, by rw [hjr, hjc]; exact hcovq⟩
        rw [hoc.2.1] at htrue
        exact Bool.noConfusion htrue
    · rw [List.mem_singleton.mp hpwm, List.mem_singleton.mp hqwm] at hske
      exact absurd rfl hske
  · intro pw hpw qw hqw hpd hqd r' c' hcovp hcovq
    rcases List.mem_append.mp hpw with hpwm | hpwm <;>
      rcases List.mem_append.mp hqw with hqwm | hqwm
    · obtain ⟨dw, hdw, hddir, hdcov⟩ := inv.adjA pw hpwm qw hqwm hpd hqd r' c' hcovp hcovq
      exact ⟨dw, List.mem_append_left _ hdw, hddir, hdcov⟩
    · -- pw old covers (r', c'), qw is the new word covering (r' + 1, c')
      rw [List.mem_singleton.mp hqwm] at hcovq hqd
      have hdac : dir = Dir.across := hqd
      subst hdac
      obtain ⟨j, hj, hjr, hjc⟩ := hcov_new _ _ hcovq
      cases hcell : gridGet g (r' + 1) c' with
      | none =>
        rw [← hjr, ← hjc] at hcell
        have hok' := hok j hj
        unfold CellOk at hok'
        rw [hcell] at hok'
        replace hok' :
            (posR row Dir.across j = 0 ∨
              gridGet g (posR row Dir.across j - 1) (posC col Dir.across j) = none) ∧
            (GRID_SIZE - 1 ≤ posR row Dir.across j ∨
              gridGet g (posR row Dir.across j + 1) (posC col Dir.across j) = none) := hok'
        rcases hok'.1 with h0 | h0
        · rw [hjr] at h0
          exact absurd h0 (by omega)
        · rw [hjr, hjc] at h0
          have hr1 : r' + 1 - 1 = r' := by omega
          rw [hr1] at h0
          exact absurd h0 (by
            intro h0
            exact render_contra_none inv hpwm hcovp h0)
      | some ch =>
        rw [← hjr, ← hjc] at hcell
        have hoc := (cellOk_occupied_iff hcell).mp (hok j hj)
        have hother := hoc.2.2
        rw [show Dir.across.other = Dir.down from rfl] at hother
        obtain ⟨dw, hdwm, hddir, hdcov⟩ := (occupiedHas_iff placed _ _ Dir.down).mp hother
        rw [hjr, hjc] at hdcov
        exact ⟨dw, List.mem_append_left _ hdwm, hddir, Or.inr hdcov⟩
    · -- pw is the new word covering (r', c'), qw old covers (r' + 1, c')
      rw [List.mem_singleton.mp hpwm] at hcovp hpd
      have hdac : dir = Dir.across := hpd
      subst hdac
      obtain ⟨j, hj, hjr, hjc⟩ := hcov_new _ _ hcovp
      cases hcell : gridGet g r' c' with
      | none =>
        rw [← hjr, ← hjc] at hcell
        have hok' := hok j hj
        unfold CellOk at hok'
        rw [hcell] at hok'
        replace hok' :
            (posR row Dir.across j = 0 ∨
              gridGet g (posR row Dir.across j - 1) (posC col Dir.across j) = none) ∧
            (GRID_SIZE - 1 ≤ posR row Dir.across j ∨
              gridGet g (posR row Dir.across j + 1) (posC col Dir.across j) = none) := hok'
        rcases hok'.2 with h0 | h0
        · rw [hjr] at h0
          have hq1 := (coversP_lt (inv.inb qw hqwm) hcovq).1
          have hgs : GRID_SIZE = 15 := rfl
          exact absurd h0 (by omega)
        · rw [hjr, hjc] at h0
          exact absurd h0 (by
            intro h0
            exact render_contra_none inv hqwm hcovq h0)
      | some ch =>
        rw [← hjr, ← hjc] at hcell
        have hoc := (cellOk_occupied_iff hcell).mp (hok j hj)
        have hother := hoc.2.2
        rw [show Dir.across.other = Dir.down from rfl] at hother
        obtain ⟨dw, hdwm, hddir, hdcov⟩ := (occupiedHas_iff placed _ _ Dir.down).mp hother
        rw [hjr, hjc] at hdcov
        exact ⟨dw, List.mem_append_left _ hdwm, hddir, Or.inl hdcov⟩
    · -- both are the new word: an across word cannot cover two rows
      rw [List.mem_singleton.mp hpwm] at hcovp hpd
      rw [List.mem_singleton.mp hqwm] at hcovq
      have hdac : dir = Dir.across := hpd
      subst hdac
      obtain ⟨j, hj, hjr, hjc⟩ := hcov_new _ _ hcovp
      obtain ⟨j2, hj2, hjr2, hjc2⟩ := hcov_new _ _ hcovq
      simp only [posR] at hjr hjr2
      omega
  · intro pw hpw qw hqw hpd hqd r' c' hcovp hcovq
    rcases List.mem_append.mp hpw with hpwm | hpwm <;>
      rcases List.mem_append.mp hqw with hqwm | hqwm
    · obtain ⟨aw, haw, haddir, hacov⟩ := inv.adjD pw hpwm qw hqwm hpd hqd r' c' hcovp hcovq
      exact ⟨aw, List.mem_append_left _ haw, haddir, hacov⟩
    · rw [List.mem_singleton.mp hqwm] at hcovq hqd
      have hdac : dir = Dir.down := hqd
      subst hdac
      obtain ⟨j, hj, hjr, hjc⟩ := hcov_new _ _ hcovq
      cases hcell : gridGet g r' (c' + 1) with
      | none =>
        rw [← hjr, ← hjc] at hcell
        have hok' := hok j hj
        unfold CellOk at hok'
        rw [hcell] at hok'
        replace hok' :
            (posC col Dir.down j = 0 ∨
              gridGet g (posR row Dir.down j) (posC col Dir.down j - 1) = none) ∧
            (GRID_SIZE - 1 ≤ posC col Dir.down j ∨
              gridGet g (posR row Dir.down j) (posC col Dir.down j + 1) = none) := hok'
        rcases hok'.1 with h0 | h0
        · rw [hjc] at h0
          exact absurd h0 (by omega)
        · rw [hjr, hjc] at h0
          have hc1 : c' + 1 - 1 = c' := by omega
          rw [hc1] at h0
          exact absurd h0 (by
            intro h0
            exact render_contra_none inv hpwm hcovp h0)
      | some ch =>
        rw [← hjr, ← hjc] at hcell
        have hoc := (cellOk_occupied_iff hcell).mp (hok j hj)
        have hother := hoc.2.2
        rw [show Dir.down.other = Dir.across from rfl] at hother
        obtain ⟨aw, hawm, haddir, hacov⟩ := (occupiedHas_iff placed _ _ Dir.across).mp hother
        rw [hjr, hjc] at hacov
        exact ⟨aw, List.mem_append_left _ hawm, haddir, Or.inr hacov⟩
    · rw [List.mem_singleton.mp hpwm] at hcovp hpd
      have hdac : dir = Dir.down := hpd
      subst hdac
      obtain ⟨j, hj, hjr, hjc⟩ := hcov_new _ _ hcovp
      cases hcell : gridGet g r' c' with
      | none =>
        rw [← hjr, ← hjc] at hcell
        have hok' := hok j hj
        unfold CellOk at hok'
        rw [hcell] at hok'
        replace hok' :
            (posC col Dir.down j = 0 ∨
              gridGet g (posR row Dir.down j) (posC col Dir.down j - 1) = none) ∧
            (GRID_SIZE - 1 ≤ posC col Dir.down j ∨
              gridGet g (posR row Dir.down j) (posC col Dir.down j + 1) = none) := hok'
        rcases hok'.2 with h0 | h0
        · rw [hjc] at h0
          have hq1 := (coversP_lt (inv.inb qw hqwm) hcovq).2
          have hgs : GRID_SIZE = 15 := rfl
          exact absurd h0 (by omega)
        · rw [hjr, hjc] at h0
          exact absurd h0 (by
            intro h0
            exact render_contra_none inv hqwm hcovq h0)
      | some ch =>
        rw [← hjr, ← hjc] at hcell
        have hoc := (cellOk_occupied_iff hcell).mp (hok j hj)
        have hother := hoc.2.2
        rw [show Dir.down.other = Dir.across from rfl] at hother
        obtain ⟨aw, hawm, haddir, hacov⟩ := (occupiedHas_iff placed _ _ Dir.across).mp hother
        rw [hjr, hjc] at hacov
        exact ⟨aw, List.mem_append_left _ hawm, haddir, Or.inl hacov⟩
    · rw [List.mem_singleton.mp hpwm] at hcovp hpd
      rw [List.mem_singleton.mp hqwm] at hcovq
      have hdac : dir = Dir.down := hpd
      subst hdac
      obtain ⟨j, hj, hjr, hjc⟩ := hcov_new _ _ hcovp
      obtain ⟨j2, hj2, hjr2, hjc2⟩ := hcov_new _ _ hcovq
      simp only [posC] at hjc hjc2
      omega


/-!
The layout invariant holds for every attempt and for the winning layout.
-/

theorem layoutInv_nil : LayoutInv createEmptyGrid [] := by
  refine ⟨gridDims_createEmptyGrid, by simp, by simp, by simp, by simp, by simp, by simp⟩

theorem placeStep_commit {s : GridS × List PlacedWord} {e : WordEntry} {p : Placement}
    (h : findBestPlacement s.1 e.word s.2 = some p) (hs : 0 < p.score) :
    placeStep s e = (placeWord s.1 e.word p.row p.col p.direction,
      s.2 ++ [mkPlaced e.word e.clue p.row p.col p.direction]) := by
  unfold placeStep
  simp only [h]
  rw [if_pos hs]

theorem placeStep_skip_low {s : GridS × List PlacedWord} {e : WordEntry} {p : Placement}
    (h : findBestPlacement s.1 e.word s.2 = some p) (hs : ¬0 < p.score) :
    placeStep s e = s := by
  unfold placeStep
  simp only [h]
  rw [if_neg hs]

theorem placeStep_skip_none {s : GridS × List PlacedWord} {e : WordEntry}
    (h : findBestPlacement s.1 e.word s.2 = none) :
    placeStep s e = s := by
  unfold placeStep
  simp only [h]

theorem canPlaceWord_inter_pos {g : GridS} {word : List Char} {row col : Nat}
    {dir : Dir} {placed : List PlacedWord}
    (h : canPlaceWord g word row col dir placed = true) (hne : placed ≠ []) :
    1 ≤ interCount g word row col dir := by
  unfold canPlaceWord at h
  cases dir with
  | across =>
    dsimp only at h
    by_cases h1 : GRID_SIZE < col + word.length
    · rw [if_pos h1] at h
      exact absurd (show (false : Bool) = true from h) (by simp)
    rw [if_neg h1] at h
    by_cases h2 : 0 < col ∧ (gridGet g row (col - 1)).isSome
    · rw [if_pos h2] at h
      exact absurd (show (false : Bool) = true from h) (by simp)
    rw [if_neg h2] at h
    by_cases h3 : col + word.length < GRID_SIZE ∧ (gridGet g row (col + word.length)).isSome
    · rw [if_pos h3] at h
      exact absurd (show (false : Bool) = true from h) (by simp)
    rw [if_neg h3] at h
    cases hck : checkCells g word row col .across placed (List.range word.length) with
    | none =>
      rw [hck] at h
      exact absurd (show (false : Bool) = true from h) (by simp)
    | some n =>
      rw [hck] at h
      replace h : (if placed ≠ [] ∧ n = 0 then false else true) = true := h
      have hcond : ¬(placed ≠ [] ∧ n = 0) := by
        intro hcontra
        rw [if_pos hcontra] at h
        exact absurd h (by simp)
      have hn := ((checkCells_eq_some_iff g word row col .across placed _ n).mp hck).2
      unfold interCount
      have hn0 : n ≠ 0 := fun h0 => hcond ⟨hne, h0⟩
      omega
  | down =>
    dsimp only at h
    by_cases h1 : GRID_SIZE < row + word.length
    · rw [if_pos h1] at h
      exact absurd (show (false : Bool) = true from h) (by simp)
    rw [if_neg h1] at h
    by_cases h2 : 0 < row ∧ (gridGet g (row - 1) col).isSome
    · rw [if_pos h2] at h
      exact absurd (show (false : Bool) = true from h) (by simp)
    rw [if_neg h2] at h
    by_cases h3 : row + word.length < GRID_SIZE ∧ (gridGet g (row + word.length) col).isSome
    · rw [if_pos h3] at h
      exact absurd (show (false : Bool) = true from h) (by simp)
    rw [if_neg h3] at h
    cases hck : checkCells g word row col .down placed (List.range word.length) with
    | none =>
      rw [hck] at h
      exact absurd (show (false : Bool) = true from h) (by simp)
    | some n =>
      rw [hck] at h
      replace h : (if placed ≠ [] ∧ n = 0 then false else true) = true := h
      have hcond : ¬(placed ≠ [] ∧ n = 0) := by
        intro hcontra
        rw [if_pos hcontra] at h
        exact absurd h (by simp)
      have hn := ((checkCells_eq_some_iff g word row col .down placed _ n).mp hck).2
      unfold interCount
      have hn0 : n ≠ 0 := fun h0 => hcond ⟨hne, h0⟩
      omega

theorem layoutInv_placeStep {s : GridS × List PlacedWord}
    (inv : LayoutInv s.1 s.2) (hne : s.2 ≠ []) (e : WordEntry) :
    LayoutInv (placeStep s e).1 (placeStep s e).2 ∧ (placeStep s e).2 ≠ [] := by
  cases hfind : findBestPlacement s.1 e.word s.2 with
  | none =>
    rw [placeStep_skip_none hfind]
    exact ⟨inv, hne⟩
  | some p =>
    by_cases hscore : 0 < p.score
    · rw [placeStep_commit hfind hscore]
      obtain ⟨l₁, l₂, hsplit, hleg, hpscore, hmax, hfirst⟩ :=
        findBestPlacement_some_spec s.1 e.word s.2 p hfind
      have hmem : (p.direction, p.row, p.col) ∈ scanOrder e.word.length := by
        rw [hsplit]
        simp
      have hlen1 : 1 ≤ e.word.length :=
        interCount_pos_len (canPlaceWord_inter_pos hleg hne)
      have hbounds : p.row < GRID_SIZE ∧ p.col < GRID_SIZE := by
        rcases mem_scanOrder hmem with ⟨hd, h1, h2⟩ | ⟨hd, h1, h2⟩ <;>
          dsimp only at hd h1 h2 <;> omega
      constructor
      · exact layoutInv_step inv e.word e.clue p.row p.col p.direction hleg
          hbounds.1 hbounds.2
      · simp
    · rw [placeStep_skip_low hfind hscore]
      exact ⟨inv, hne⟩

theorem layoutInv_placeLoop :
    ∀ (es : List WordEntry) (s : GridS × List PlacedWord),
      LayoutInv s.1 s.2 → s.2 ≠ [] →
      LayoutInv (placeLoop es s).1 (placeLoop es s).2 ∧ (placeLoop es s).2 ≠ [] := by
  intro es
  induction es with
  | nil =>
    intro s inv hne
    exact ⟨inv, hne⟩
  | cons e rest ih =>
    intro s inv hne
    rw [placeLoop]
    by_cases hcap : s.2.length < 28
    · rw [if_pos hcap]
      obtain ⟨inv2, hne2⟩ := layoutInv_placeStep inv hne e
      exact ih _ inv2 hne2
    · rw [if_neg hcap]
      exact ⟨inv, hne⟩

theorem seed_canPlace (word : List Char) (hlen : word.length ≤ GRID_SIZE) :
    canPlaceWord createEmptyGrid word (GRID_SIZE / 2)
      ((GRID_SIZE - word.length) / 2) .across [] = true := by
  have hgs : GRID_SIZE = 15 := rfl
  apply (canPlaceWord_iff_legal _ _ _ _ _ _ (by omega) (by omega)).mpr
  refine ⟨?_, ?_, ?_, ?_, ?_⟩
  · intro i hi
    simp only [posR, posC]
    omega
  · exact Or.inr (gridGet_createEmptyGrid _ _)
  · exact Or.inr (gridGet_createEmptyGrid _ _)
  · intro i hi
    unfold CellOk
    rw [gridGet_createEmptyGrid]
    exact ⟨Or.inr (gridGet_createEmptyGrid _ _), Or.inr (gridGet_createEmptyGrid _ _)⟩
  · intro h
    exact absurd rfl h

theorem layoutInv_seed (word : List Char) (clue : String)
    (hlen : word.length ≤ GRID_SIZE) :
    LayoutInv
      (placeWord createEmptyGrid word (GRID_SIZE / 2) ((GRID_SIZE - word.length) / 2) .across)
      [mkPlaced word clue (GRID_SIZE / 2) ((GRID_SIZE - word.length) / 2) .across] := by
  have hgs : GRID_SIZE = 15 := rfl
  have hres := layoutInv_step layoutInv_nil word clue (GRID_SIZE / 2)
    ((GRID_SIZE - word.length) / 2) .across (seed_canPlace word hlen)
    (by omega) (by omega)
  simpa using hres

theorem layoutInv_runAttempt (pool : List WordEntry) (rng : List Nat) :
    LayoutInv (runAttempt pool rng).1.1 (runAttempt pool rng).1.2 := by
  unfold runAttempt
  cases hsh : (shuffle pool rng).1.filter (fun e => e.word.length ≤ GRID_SIZE) with
  | nil => exact layoutInv_nil
  | cons first rest =>
    have hmem : first ∈ (shuffle pool rng).1.filter
        (fun e => e.word.length ≤ GRID_SIZE) := by
      rw [hsh]
      simp
    have hlen : first.word.length ≤ GRID_SIZE := by
      have hp := List.of_mem_filter hmem
      simpa using hp
    have hseed := layoutInv_seed first.word first.clue hlen
    exact (layoutInv_placeLoop rest _ hseed (by simp)).1

theorem layoutInv_attemptsGo (pool : List WordEntry) :
    ∀ (n : Nat) (best : GridS × List PlacedWord) (rng : List Nat),
      LayoutInv best.1 best.2 →
      LayoutInv (attemptsGo pool n best rng).1.1 (attemptsGo pool n best rng).1.2 := by
  intro n
  induction n with
  | zero =>
    intro best rng inv
    exact inv
  | succ m ih =>
    intro best rng inv
    rw [attemptsGo]
    apply ih
    by_cases hlt : best.2.length < (runAttempt pool rng).1.2.length
    · rw [if_pos hlt]
      exact layoutInv_runAttempt pool rng
    · rw [if_neg hlt]
      exact inv

theorem layoutInv_genBest (pool : List WordEntry) (sols : List (List Char))
    (rng : List Nat) :
    LayoutInv (genBest pool sols rng).1.1 (genBest pool sols rng).1.2 :=
  layoutInv_attemptsGo pool 8 _ _ layoutInv_nil


/-!
Skeleton transport through sorting and numbering, and shuffle membership.
-/

theorem sk_setNumber (pw : PlacedWord) (n : Nat) :
    sk { pw with number := n } = sk pw := rfl

theorem numberGo_map_sk :
    ∀ (l : List PlacedWord) (m : List ((Nat × Nat) × Nat)) (n : Nat),
      (numberGo l m n).1.map sk = l.map sk := by
  intro l
  induction l with
  | nil =>
    intro m n
    rfl
  | cons pw rest ih =>
    intro m n
    rw [numberGo]
    cases hlk : keyLookup m (startKey pw) with
    | some v =>
      dsimp only
      rw [List.map_cons, List.map_cons, ih, sk_setNumber]
    | none =>
      dsimp only
      rw [List.map_cons, List.map_cons, ih, sk_setNumber]

theorem assignNumbers_map_sk (ws : List PlacedWord) :
    (assignNumbers ws).map sk = ws.map sk :=
  numberGo_map_sk ws [] 1

theorem genNumbered_sk_perm (pool : List WordEntry) (sols : List (List Char))
    (rng : List Nat) :
    ((genNumbered pool sols rng).map sk).Perm
      (((genBest pool sols rng).1.2).map sk) := by
  unfold genNumbered
  rw [assignNumbers_map_sk]
  exact (List.perm_insertionSort pwLe _).map sk

theorem mem_genNumbered_sk {pool : List WordEntry} {sols : List (List Char)}
    {rng : List Nat} {A : PlacedWord} (hA : A ∈ genNumbered pool sols rng) :
    ∃ B ∈ (genBest pool sols rng).1.2, sk B = sk A := by
  have hmem : sk A ∈ ((genBest pool sols rng).1.2).map sk :=
    (genNumbered_sk_perm pool sols rng).mem_iff.mp (List.mem_map_of_mem sk hA)
  obtain ⟨B, hB, hBsk⟩ := List.mem_map.mp hmem
  exact ⟨B, hB, hBsk⟩

theorem mem_genNumbered_sk_rev {pool : List WordEntry} {sols : List (List Char)}
    {rng : List Nat} {B : PlacedWord} (hB : B ∈ (genBest pool sols rng).1.2) :
    ∃ A ∈ genNumbered pool sols rng, sk A = sk B := by
  have hmem : sk B ∈ (genNumbered pool sols rng).map sk :=
    (genNumbered_sk_perm pool sols rng).mem_iff.mpr (List.mem_map_of_mem sk hB)
  obtain ⟨A, hA, hAsk⟩ := List.mem_map.mp hmem
  exact ⟨A, hA, hAsk⟩

theorem genNumbered_sk_nodup (pool : List WordEntry) (sols : List (List Char))
    (rng : List Nat) :
    ((genNumbered pool sols rng).map sk).Nodup :=
  (genNumbered_sk_perm pool sols rng).nodup_iff.mpr
    (layoutInv_genBest pool sols rng).skNodup

theorem listSwap_subset {α : Type} (l : List α) (i j : Nat) :
    listSwap l i j ⊆ l := by
  unfold listSwap
  cases hi : l[i]? with
  | none => exact fun x hx => hx
  | some x0 =>
    cases hj : l[j]? with
    | none => exact fun x hx => hx
    | some y0 =>
      intro x hx
      rcases List.mem_or_eq_of_mem_set hx with hx | hx
      · rcases List.mem_or_eq_of_mem_set hx with hx | hx
        · exact hx
        · subst hx
          exact List.getElem?_mem hj
      · subst hx
        exact List.getElem?_mem hi

theorem shuffleGo_subset {α : Type} :
    ∀ (k : Nat) (a : List α) (rng : List Nat), (shuffleGo k a rng).1 ⊆ a := by
  intro k
  induction k with
  | zero =>
    intro a rng
    exact fun x hx => hx
  | succ m ih =>
    intro a rng
    exact fun x hx => listSwap_subset a (m + 1) _ (ih _ _ hx)

theorem shuffle_subset {α : Type} (a : List α) (rng : List Nat) :
    (shuffle a rng).1 ⊆ a :=
  shuffleGo_subset (a.length - 1) a rng


/-!
Per-cell legality extraction and exact-score arithmetic.
-/

theorem canPlaceWord_cellOk {g : GridS} {word : List Char} {row col : Nat}
    {dir : Dir} {placed : List PlacedWord}
    (h : canPlaceWord g word row col dir placed = true) :
    ∀ i < word.length, CellOk g word row col dir placed i := by
  unfold canPlaceWord at h
  cases dir with
  | across =>
    dsimp only at h
    by_cases h1 : GRID_SIZE < col + word.length
    · rw [if_pos h1] at h
      exact absurd (show (false : Bool) = true from h) (by simp)
    rw [if_neg h1] at h
    by_cases h2 : 0 < col ∧ (gridGet g row (col - 1)).isSome
    · rw [if_pos h2] at h
      exact absurd (show (false : Bool) = true from h) (by simp)
    rw [if_neg h2] at h
    by_cases h3 : col + word.length < GRID_SIZE ∧ (gridGet g row (col + word.length)).isSome
    · rw [if_pos h3] at h
      exact absurd (show (false : Bool) = true from h) (by simp)
    rw [if_neg h3] at h
    cases hck : checkCells g word row col .across placed (List.range word.length) with
    | none =>
      rw [hck] at h
      exact absurd (show (false : Bool) = true from h) (by simp)
    | some n =>
      intro i hi
      exact ((checkCells_eq_some_iff g word row col .across placed _ n).mp hck).1 i
        (List.mem_range.mpr hi)
  | down =>
    dsimp only at h
    by_cases h1 : GRID_SIZE < row + word.length
    · rw [if_pos h1] at h
      exact absurd (show (false : Bool) = true from h) (by simp)
    rw [if_neg h1] at h
    by_cases h2 : 0 < row ∧ (gridGet g (row - 1) col).isSome
    · rw [if_pos h2] at h
      exact absurd (show (false : Bool) = true from h) (by simp)
    rw [if_neg h2] at h
    by_cases h3 : row + word.length < GRID_SIZE ∧ (gridGet g (row + word.length) col).isSome
    · rw [if_pos h3] at h
      exact absurd (show (false : Bool) = true from h) (by simp)
    rw [if_neg h3] at h
    cases hck : checkCells g word row col .down placed (List.range word.length) with
    | none =>
      rw [hck] at h
      exact absurd (show (false : Bool) = true from h) (by simp)
    | some n =>
      intro i hi
      exact ((checkCells_eq_some_iff g word row col .down placed _ n).mp hck).1 i
        (List.mem_range.mpr hi)

theorem centerR2_eq (r len : Nat) (dir : Dir) :
    (centerR2 r len dir : ℚ) = 2 * centerRQ r len dir := by
  cases dir with
  | across => simp [centerR2, centerRQ]
  | down =>
    simp only [centerR2, centerRQ]
    push_cast
    ring

theorem centerC2_eq (c len : Nat) (dir : Dir) :
    (centerC2 c len dir : ℚ) = 2 * centerCQ c len dir := by
  cases dir with
  | across =>
    simp only [centerC2, centerCQ]
    push_cast
    ring
  | down => simp [centerC2, centerCQ]

theorem scoreQ_formula (g : GridS) (word : List Char) (r c : Nat) (dir : Dir) :
    scoreQ g word r c dir =
      10 * (matchCount g word r c dir : ℚ) -
        (|centerRQ r word.length dir - 7| + |centerCQ c word.length dir - 7|) * (1 / 2) := by
  unfold scoreQ score4
  push_cast [Int.cast_abs]
  rw [show ((centerR2 r word.length dir : ℚ) - 14) = 2 * (centerRQ r word.length dir - 7) by
      rw [centerR2_eq]; ring,
    show ((centerC2 c word.length dir : ℚ) - 14) = 2 * (centerCQ c word.length dir - 7) by
      rw [centerC2_eq]; ring,
    abs_mul, abs_mul]
  rw [show |(2 : ℚ)| = 2 from by norm_num]
  ring


/-!
Claim theorems C1, C5, C9, C2 and witnesses.
-/

/-- C1: canPlaceWord(grid, word, row, col, direction, placed, occupied)
returns true if and only if: the word fits entirely inside the 15x15 grid in
its orientation; the cells immediately before the start and after the end
along the word's axis are empty or off-grid; every position is individually
legal (an occupied target cell carries the word's letter, is not occupied in
the word's own orientation and is occupied in the perpendicular orientation,
an empty target cell has both perpendicular neighbours empty or off-grid);
and a non-empty placed list forces at least one intersection. The occupancy
map is derived from the placed list exactly as every call site builds it, and
the start cell is confined to the grid, as at every call the program makes. -/
theorem claim_C1_canPlaceWord_spec (g : GridS) (word : List Char) (row col : Nat)
    (dir : Dir) (placed : List PlacedWord)
    (hr : row < GRID_SIZE) (hc : col < GRID_SIZE) :
    canPlaceWord g word row col dir placed = true ↔
      PlacementLegal g word row col dir placed :=
  canPlaceWord_iff_legal g word row col dir placed hr hc

/-- Witness for C1 at a concrete legal crossing: BA placed down at (6, 7)
across the A of CAT. -/
theorem claim_C1_canPlaceWord_spec_witness :
    6 < GRID_SIZE ∧ 7 < GRID_SIZE ∧
      (canPlaceWord exGrid1 exWordBA 6 7 .down exPlaced1 = true ↔
        PlacementLegal exGrid1 exWordBA 6 7 .down exPlaced1) :=
  ⟨by decide, by decide,
    claim_C1_canPlaceWord_spec exGrid1 exWordBA 6 7 .down exPlaced1
      (by decide) (by decide)⟩

/-- C5: for every candidate placement that passes the legality check, the
score computed for it equals 10 times the number of positions whose target
cell is already occupied (the intersections), minus 0.5 times the sum of the
absolute offsets of the word's centre row and centre column from the grid's
middle row and column (index 7). -/
theorem claim_C5_score (g : GridS) (word : List Char) (r c : Nat) (dir : Dir)
    (placed : List PlacedWord)
    (hleg : canPlaceWord g word r c dir placed = true) :
    scoreQ g word r c dir =
      10 * (interCount g word r c dir : ℚ) -
        (|centerRQ r word.length dir - 7| + |centerCQ c word.length dir - 7|) * (1 / 2) := by
  rw [scoreQ_formula]
  rw [matchCount_eq_interCount g word r c dir placed (canPlaceWord_cellOk hleg)]

/-- Witness for C5 at the same concrete legal crossing. -/
theorem claim_C5_score_witness :
    canPlaceWord exGrid1 exWordBA 6 7 .down exPlaced1 = true ∧
      scoreQ exGrid1 exWordBA 6 7 .down =
        10 * (interCount exGrid1 exWordBA 6 7 .down : ℚ) -
          (|centerRQ 6 exWordBA.length .down - 7| +
            |centerCQ 7 exWordBA.length .down - 7|) * (1 / 2) :=
  ⟨by decide, claim_C5_score exGrid1 exWordBA 6 7 .down exPlaced1 (by decide)⟩

/-- C9: generatePuzzle is deterministic modulo the pseudo-random source: two
runs reading the same word pool, the same solution-word list, and the same
sequence of random draws return equal puzzles. -/
theorem claim_C9_deterministic (pool₁ pool₂ : List WordEntry)
    (sols₁ sols₂ : List (List Char)) (rng₁ rng₂ : List Nat)
    (hp : pool₁ = pool₂) (hs : sols₁ = sols₂) (hr : rng₁ = rng₂) :
    generatePuzzle pool₁ sols₁ rng₁ = generatePuzzle pool₂ sols₂ rng₂ := by
  rw [hp, hs, hr]

/-- Witness for C9 on concrete equal inputs. -/
theorem claim_C9_deterministic_witness :
    generatePuzzle exPool1 exSols2 [] = generatePuzzle exPool1 exSols2 [] :=
  claim_C9_deterministic exPool1 exPool1 exSols2 exSols2 [] [] rfl rfl rfl

/-- C2: in every returned puzzle the placed words have pairwise-distinct
skeletons; two words with distinct skeletons that share a cell are
perpendicular and agree on the letter at every shared cell; two
distinct-skeleton words of the same orientation never share a cell; and two
parallel words on perpendicular-adjacent cells always cross a word of the
other orientation at one of the two cells. -/
theorem claim_C2_grid_legality (pool : List WordEntry) (sols : List (List Char))
    (rng : List Nat) :
    (((generatePuzzle pool sols rng).placedWords.map sk).Nodup) ∧
    (∀ A ∈ (generatePuzzle pool sols rng).placedWords,
      ∀ B ∈ (generatePuzzle pool sols rng).placedWords, sk A ≠ sk B →
      ∀ r c, CoversP A r c → CoversP B r c →
        A.direction ≠ B.direction ∧ letterAtP A r c = letterAtP B r c) ∧
    (∀ A ∈ (generatePuzzle pool sols rng).placedWords,
      ∀ B ∈ (generatePuzzle pool sols rng).placedWords, sk A ≠ sk B →
      A.direction = B.direction → ∀ r c, CoversP A r c → ¬CoversP B r c) ∧
    (∀ A ∈ (generatePuzzle pool sols rng).placedWords,
      ∀ B ∈ (generatePuzzle pool sols rng).placedWords,
      A.direction = .across → B.direction = .across →
      ∀ r c, CoversP A r c → CoversP B (r + 1) c →
        ∃ D ∈ (generatePuzzle pool sols rng).placedWords,
          D.direction = .down ∧ (CoversP D r c ∨ CoversP D (r + 1) c)) ∧
    (∀ A ∈ (generatePuzzle pool sols rng).placedWords,
      ∀ B ∈ (generatePuzzle pool sols rng).placedWords,
      A.direction = .down → B.direction = .down →
      ∀ r c, CoversP A r c → CoversP B r (c + 1) →
        ∃ D ∈ (generatePuzzle pool sols rng).placedWords,
          D.direction = .across ∧ (CoversP D r c ∨ CoversP D r (c + 1))) := by
  have inv := layoutInv_genBest pool sols rng
  have hpw : (generatePuzzle pool sols rng).placedWords = genNumbered pool sols rng := rfl
  rw [hpw]
  refine ⟨genNumbered_sk_nodup pool sols rng, ?_, ?_, ?_, ?_⟩
  · intro A hA B hB hske r c hcA hcB
    obtain ⟨A0, hA0, hA0sk⟩ := mem_genNumbered_sk hA
    obtain ⟨B0, hB0, hB0sk⟩ := mem_genNumbered_sk hB
    have hske0 : sk A0 ≠ sk B0 := by
      rw [hA0sk, hB0sk]
      exact hske
    have hcA0 : CoversP A0 r c := (sk_coversP hA0sk r c).mpr hcA
    have hcB0 : CoversP B0 r c := (sk_coversP hB0sk r c).mpr hcB
    constructor
    · have hdir := inv.share A0 hA0 B0 hB0 hske0 r c hcA0 hcB0
      rw [(sk_fields hA0sk).2.2.2, (sk_fields hB0sk).2.2.2] at hdir
      exact hdir
    · rw [← sk_letterAtP hA0sk r c, ← sk_letterAtP hB0sk r c]
      rw [← render_letterAtP inv hA0 hcA0, ← render_letterAtP inv hB0 hcB0]
  · intro A hA B hB hske hdir r c hcA hcB
    obtain ⟨A0, hA0, hA0sk⟩ := mem_genNumbered_sk hA
    obtain ⟨B0, hB0, hB0sk⟩ := mem_genNumbered_sk hB
    have hske0 : sk A0 ≠ sk B0 := by
      rw [hA0sk, hB0sk]
      exact hske
    have hcA0 : CoversP A0 r c := (sk_coversP hA0sk r c).mpr hcA
    have hcB0 : CoversP B0 r c := (sk_coversP hB0sk r c).mpr hcB
    have hd := inv.share A0 hA0 B0 hB0 hske0 r c hcA0 hcB0
    rw [(sk_fields hA0sk).2.2.2, (sk_fields hB0sk).2.2.2] at hd
    exact hd hdir
  · intro A hA B hB hdA hdB r c hcA hcB
    obtain ⟨A0, hA0, hA0sk⟩ := mem_genNumbered_sk hA
    obtain ⟨B0, hB0, hB0sk⟩ := mem_genNumbered_sk hB
    have hcA0 : CoversP A0 r c := (sk_coversP hA0sk r c).mpr hcA
    have hcB0 : CoversP B0 (r + 1) c := (sk_coversP hB0sk (r + 1) c).mpr hcB
    have hdA0 : A0.direction = .across := by
      rw [(sk_fields hA0sk).2.2.2]
      exact hdA
    have hdB0 : B0.direction = .across := by
      rw [(sk_fields hB0sk).2.2.2]
      exact hdB
    obtain ⟨dw, hdw, hddir, hdcov⟩ := inv.adjA A0 hA0 B0 hB0 hdA0 hdB0 r c hcA0 hcB0
    obtain ⟨D, hD, hDsk⟩ := mem_genNumbered_sk_rev hdw
    refine ⟨D, hD, ?_, ?_⟩
    · rw [(sk_fields hDsk).2.2.2]
      exact hddir
    · rcases hdcov with hdcov | hdcov
      · exact Or.inl ((sk_coversP hDsk r c).mpr hdcov)
      · exact Or.inr ((sk_coversP hDsk (r + 1) c).mpr hdcov)
  · intro A hA B hB hdA hdB r c hcA hcB
    obtain ⟨A0, hA0, hA0sk⟩ := mem_genNumbered_sk hA
    obtain ⟨B0, hB0, hB0sk⟩ := mem_genNumbered_sk hB
    have hcA0 : CoversP A0 r c := (sk_coversP hA0sk r c).mpr hcA
    have hcB0 : CoversP B0 r (c + 1) := (sk_coversP hB0sk r (c + 1)).mpr hcB
    have hdA0 : A0.direction = .down := by
      rw [(sk_fields hA0sk).2.2.2]
      exact hdA
    have hdB0 : B0.direction = .down := by
      rw [(sk_fields hB0sk).2.2.2]
      exact hdB
    obtain ⟨aw, haw, haddir, hacov⟩ := inv.adjD A0 hA0 B0 hB0 hdA0 hdB0 r c hcA0 hcB0
    obtain ⟨D, hD, hDsk⟩ := mem_genNumbered_sk_rev haw
    refine ⟨D, hD, ?_, ?_⟩
    · rw [(sk_fields hDsk).2.2.2]
      exact haddir
    · rcases hacov with hacov | hacov
      · exact Or.inl ((sk_coversP hDsk r c).mpr hacov)
      · exact Or.inr ((sk_coversP hDsk r (c + 1)).mpr hacov)

/-- Witness for C2: skeletons of a concretely generated puzzle are distinct. -/
theorem claim_C2_grid_legality_witness :
    ((generatePuzzle exPool1 exSols2 []).placedWords.map sk).Nodup :=
  (claim_C2_grid_legality exPool1 exSols2 []).1


/-- C6: for each word after the seed, findBestPlacement returns the first
legal placement attaining the maximum score in scan order (across before
down, row ascending, column ascending), or none when no placement is legal;
and the placement-loop body commits the word to the grid and the placed list
exactly when that best placement exists with score strictly above 0,
otherwise it leaves both unchanged. -/
theorem claim_C6_greedy_step (s : GridS × List PlacedWord) (e : WordEntry) :
    (findBestPlacement s.1 e.word s.2 = none ↔
      ∀ t ∈ scanOrder e.word.length,
        canPlaceWord s.1 e.word t.2.1 t.2.2 t.1 s.2 = false) ∧
    (∀ p, findBestPlacement s.1 e.word s.2 = some p →
      ∃ l₁ l₂, scanOrder e.word.length = l₁ ++ (p.direction, p.row, p.col) :: l₂ ∧
        canPlaceWord s.1 e.word p.row p.col p.direction s.2 = true ∧
        p.score = score4 s.1 e.word p.row p.col p.direction ∧
        (∀ t ∈ scanOrder e.word.length,
          canPlaceWord s.1 e.word t.2.1 t.2.2 t.1 s.2 = true →
          score4 s.1 e.word t.2.1 t.2.2 t.1 ≤ p.score) ∧
        (∀ t ∈ l₁, canPlaceWord s.1 e.word t.2.1 t.2.2 t.1 s.2 = true →
          score4 s.1 e.word t.2.1 t.2.2 t.1 < p.score)) ∧
    (∀ p, findBestPlacement s.1 e.word s.2 = some p → 0 < p.score →
      placeStep s e = (placeWord s.1 e.word p.row p.col p.direction,
        s.2 ++ [mkPlaced e.word e.clue p.row p.col p.direction])) ∧
    (∀ p, findBestPlacement s.1 e.word s.2 = some p → ¬0 < p.score →
      placeStep s e = s) ∧
    (findBestPlacement s.1 e.word s.2 = none → placeStep s e = s) :=
  ⟨findBestPlacement_none_iff s.1 e.word s.2,
   fun p h => findBestPlacement_some_spec s.1 e.word s.2 p h,
   fun p h hs => placeStep_commit h hs,
   fun p h hs => placeStep_skip_low h hs,
   fun h => placeStep_skip_none h⟩

/-- Witness for C6: on the CAT grid, BA's best placement is the down crossing
at (6, 7) with score 10 (stored as 40), and the loop body commits it. -/
theorem claim_C6_greedy_step_witness :
    findBestPlacement exGrid1 exWordBA exPlaced1 = some ⟨6, 7, .down, 40⟩ ∧
    (0 : Int) < 40 ∧
    placeStep (exGrid1, exPlaced1) ⟨exWordBA, "b", "k"⟩ =
      (placeWord exGrid1 exWordBA 6 7 .down,
       exPlaced1 ++ [mkPlaced exWordBA "b" 6 7 .down]) :=
  ⟨by decide, by decide,
    (claim_C6_greedy_step (exGrid1, exPlaced1) ⟨exWordBA, "b", "k"⟩).2.2.1
      ⟨6, 7, .down, 40⟩ (by decide) (by decide)⟩


/-!
Cell-grid dimension and frame lemmas.
-/

theorem getD_map_range {α : Type} (n : Nat) (f : Nat → α) {r : Nat}
    (hr : r < n) (d : α) : ((List.range n).map f).getD r d = f r := by
  rw [List.getD_eq_getElem?_getD, List.getElem?_map, List.getElem?_range hr]
  rfl

theorem cellDims_buildCellGrid (g : GridS) : CellDims (buildCellGrid g) := by
  constructor
  · simp [buildCellGrid]
  · intro r hr
    unfold buildCellGrid
    rw [getD_map_range _ _ hr]
    simp

theorem cellAt_buildCellGrid (g : GridS) {r c : Nat}
    (hr : r < GRID_SIZE) (hc : c < GRID_SIZE) :
    cellAt (buildCellGrid g) r c =
      { letter := gridGet g r c, userInput := "",
        isBlack := (gridGet g r c).isNone,
        number := none, acrossClue := none, downClue := none,
        isSolutionCell := false, solutionIndex := none,
        revealed := false, checked := false, isCorrect := none } := by
  unfold cellAt buildCellGrid
  rw [getD_map_range _ _ hr, getD_map_range _ _ hc]

theorem cellAt_cellSet_of_ne (cg : CellGrid) {r' c' r c : Nat} (x : Cell)
    (h : r' ≠ r ∨ c' ≠ c) : cellAt (cellSet cg r' c' x) r c = cellAt cg r c := by
  unfold cellAt cellSet
  rcases h with h | h
  · rw [getD_set_ne _ _ _ h]
  · by_cases hr : r' = r
    · subst hr
      by_cases hl : r' < cg.length
      · rw [getD_set_self _ _ _ hl, getD_set_ne _ _ _ h]
      · have hset : cg.set r' ((cg.getD r' []).set c' x) = cg :=
          List.set_eq_of_length_le (Nat.le_of_not_lt hl)
        rw [hset]
    · rw [getD_set_ne _ _ _ hr]

theorem cellAt_cellSet_self (cg : CellGrid) {r c : Nat} (x : Cell)
    (hr : r < cg.length) (hc : c < (cg.getD r []).length) :
    cellAt (cellSet cg r c x) r c = x := by
  unfold cellAt cellSet
  rw [getD_set_self _ _ _ hr, getD_set_self _ _ _ hc]

theorem cellDims_cellSet (cg : CellGrid) (r c : Nat) (x : Cell)
    (h : CellDims cg) : CellDims (cellSet cg r c x) := by
  obtain ⟨h1, h2⟩ := h
  constructor
  · simpa [cellSet] using h1
  · intro r' hr'
    by_cases hrr : r = r'
    · subst hrr
      have hl : r < cg.length := by omega
      unfold cellSet
      rw [getD_set_self _ _ _ hl, List.length_set]
      exact h2 r hr'
    · unfold cellSet
      rw [getD_set_ne _ _ _ hrr]
      exact h2 r' hr'

theorem cellDims_cellUpdate (cg : CellGrid) (r c : Nat) (f : Cell → Cell)
    (h : CellDims cg) : CellDims (cellUpdate cg r c f) :=
  cellDims_cellSet cg r c _ h

theorem cellAt_cellUpdate_of_ne (cg : CellGrid) {r' c' r c : Nat} (f : Cell → Cell)
    (h : r' ≠ r ∨ c' ≠ c) : cellAt (cellUpdate cg r' c' f) r c = cellAt cg r c :=
  cellAt_cellSet_of_ne cg _ h

theorem cellAt_cellUpdate_self (cg : CellGrid) {r c : Nat} (f : Cell → Cell)
    (hd : CellDims cg) (hr : r < GRID_SIZE) (hc : c < GRID_SIZE) :
    cellAt (cellUpdate cg r c f) r c = f (cellAt cg r c) := by
  unfold cellUpdate
  apply cellAt_cellSet_self
  · rw [hd.1]
    exact hr
  · rw [hd.2 r hr]
    exact hc

theorem cellDims_setStartNumber (cg : CellGrid) (pw : PlacedWord)
    (h : CellDims cg) : CellDims (setStartNumber cg pw) :=
  cellDims_cellUpdate _ _ _ _ h

theorem cellDims_setClueCells (cg : CellGrid) (pw : PlacedWord)
    (h : CellDims cg) : CellDims (setClueCells cg pw) := by
  unfold setClueCells
  generalize List.range pw.word.length = l
  induction l generalizing cg with
  | nil => exact h
  | cons i rest ih =>
    rw [List.foldl_cons]
    apply ih
    cases pw.direction <;> exact cellDims_cellUpdate _ _ _ _ h

theorem cellDims_setNumAndClues (cg : CellGrid) (ws : List PlacedWord)
    (h : CellDims cg) : CellDims (setNumAndClues cg ws) := by
  unfold setNumAndClues
  induction ws generalizing cg with
  | nil => exact h
  | cons pw rest ih =>
    rw [List.foldl_cons]
    exact ih _ (cellDims_setClueCells _ _ (cellDims_setStartNumber _ _ h))

theorem chooseCell_cg (ws : List PlacedWord) (st : SolState)
    (lc : Nat × Nat) (i : Nat) (rng2 : List Nat) :
    (chooseCell ws st lc i rng2).cg =
      cellUpdate st.cg lc.1 lc.2
        (fun x => { x with isSolutionCell := true, solutionIndex := some i }) := rfl

theorem solStep_eq_strict {ws : List PlacedWord} {lcs : List (Nat × Nat)}
    {sw : List Char} {i : Nat} {st : SolState} {lc : Nat × Nat} {tl : List (Nat × Nat)}
    (h : (shuffle lcs st.rng).1.filter (strictOk ws st (sw.getD i 'A')) = lc :: tl) :
    solStep ws lcs sw i st = chooseCell ws st lc i (shuffle lcs st.rng).2 := by
  unfold solStep
  simp only [h]

theorem solStep_eq_fallback {ws : List PlacedWord} {lcs : List (Nat × Nat)}
    {sw : List Char} {i : Nat} {st : SolState} {lc : Nat × Nat} {tl : List (Nat × Nat)}
    (h1 : (shuffle lcs st.rng).1.filter (strictOk ws st (sw.getD i 'A')) = [])
    (h2 : (shuffle lcs (shuffle lcs st.rng).2).1.filter
        (relaxedOk st (sw.getD i 'A')) = lc :: tl) :
    solStep ws lcs sw i st =
      chooseCell ws st lc i (shuffle lcs (shuffle lcs st.rng).2).2 := by
  unfold solStep
  simp only [h1, h2]

theorem solStep_eq_lastresort {ws : List PlacedWord} {lcs : List (Nat × Nat)}
    {sw : List Char} {i : Nat} {st : SolState} {lc : Nat × Nat}
    (h1 : (shuffle lcs st.rng).1.filter (strictOk ws st (sw.getD i 'A')) = [])
    (h2 : (shuffle lcs (shuffle lcs st.rng).2).1.filter
        (relaxedOk st (sw.getD i 'A')) = [])
    (h3 : lcs.find? (fun lc => !(st.used.contains lc)) = some lc) :
    solStep ws lcs sw i st =
      { cg := cellUpdate st.cg lc.1 lc.2
          (fun x => { x with isSolutionCell := true, solutionIndex := some i,
                             letter := some (sw.getD i 'A') }),
        cells := st.cells ++ [⟨lc.1, lc.2, i⟩],
        used := lc :: st.used,
        usedW := st.usedW,
        rng := (shuffle lcs (shuffle lcs st.rng).2).2 } := by
  unfold solStep
  simp only [h1, h2, h3]

theorem solStep_eq_stuck {ws : List PlacedWord} {lcs : List (Nat × Nat)}
    {sw : List Char} {i : Nat} {st : SolState}
    (h1 : (shuffle lcs st.rng).1.filter (strictOk ws st (sw.getD i 'A')) = [])
    (h2 : (shuffle lcs (shuffle lcs st.rng).2).1.filter
        (relaxedOk st (sw.getD i 'A')) = [])
    (h3 : lcs.find? (fun lc => !(st.used.contains lc)) = none) :
    solStep ws lcs sw i st = { st with rng := (shuffle lcs (shuffle lcs st.rng).2).2 } := by
  unfold solStep
  simp only [h1, h2, h3]

theorem cellDims_solStep (ws : List PlacedWord) (lcs : List (Nat × Nat))
    (sw : List Char) (i : Nat) (st : SolState) (h : CellDims st.cg) :
    CellDims (solStep ws lcs sw i st).cg := by
  cases h1 : (shuffle lcs st.rng).1.filter (strictOk ws st (sw.getD i 'A')) with
  | cons lc tl =>
    rw [solStep_eq_strict h1, chooseCell_cg]
    exact cellDims_cellUpdate _ _ _ _ h
  | nil =>
    cases h2 : (shuffle lcs (shuffle lcs st.rng).2).1.filter
        (relaxedOk st (sw.getD i 'A')) with
    | cons lc tl =>
      rw [solStep_eq_fallback h1 h2, chooseCell_cg]
      exact cellDims_cellUpdate _ _ _ _ h
    | nil =>
      cases h3 : lcs.find? (fun lc => !(st.used.contains lc)) with
      | some lc =>
        rw [solStep_eq_lastresort h1 h2 h3]
        dsimp only
        exact cellDims_cellUpdate _ _ _ _ h
      | none =>
        rw [solStep_eq_stuck h1 h2 h3]
        exact h

theorem cellDims_solGo (ws : List PlacedWord) (lcs : List (Nat × Nat))
    (sw : List Char) :
    ∀ (n i : Nat) (st : SolState), CellDims st.cg →
      CellDims (solGo ws lcs sw n i st).cg := by
  intro n
  induction n with
  | zero =>
    intro i st h
    exact h
  | succ m ih =>
    intro i st h
    exact ih (i + 1) _ (cellDims_solStep ws lcs sw i st h)

theorem mem_letterCells {cg : CellGrid} {lc : Nat × Nat}
    (h : lc ∈ letterCells cg) : lc.1 < GRID_SIZE ∧ lc.2 < GRID_SIZE := by
  unfold letterCells at h
  simp only [List.mem_flatMap, List.mem_map, List.mem_filter, List.mem_range] at h
  obtain ⟨r, hr, c, ⟨hc, -⟩, heq⟩ := h
  rw [← heq]
  exact ⟨hr, hc⟩

theorem solStep_cells (ws : List PlacedWord) (lcs : List (Nat × Nat))
    (sw : List Char) (i : Nat) (st : SolState) :
    (solStep ws lcs sw i st).cells = st.cells ∨
    ∃ lc ∈ lcs, (solStep ws lcs sw i st).cells = st.cells ++ [⟨lc.1, lc.2, i⟩] := by
  cases h1 : (shuffle lcs st.rng).1.filter (strictOk ws st (sw.getD i 'A')) with
  | cons lc tl =>
    right
    refine ⟨lc, ?_, by rw [solStep_eq_strict h1]; rfl⟩
    have hm : lc ∈ (shuffle lcs st.rng).1.filter (strictOk ws st (sw.getD i 'A')) := by
      rw [h1]
      simp
    exact shuffle_subset lcs st.rng (List.mem_of_mem_filter hm)
  | nil =>
    cases h2 : (shuffle lcs (shuffle lcs st.rng).2).1.filter
        (relaxedOk st (sw.getD i 'A')) with
    | cons lc tl =>
      right
      refine ⟨lc, ?_, by rw [solStep_eq_fallback h1 h2]; rfl⟩
      have hm : lc ∈ (shuffle lcs (shuffle lcs st.rng).2).1.filter
          (relaxedOk st (sw.getD i 'A')) := by
        rw [h2]
        simp
      exact shuffle_subset lcs _ (List.mem_of_mem_filter hm)
    | nil =>
      cases h3 : lcs.find? (fun lc => !(st.used.contains lc)) with
      | some lc =>
        right
        exact ⟨lc, List.mem_of_find?_eq_some h3, by rw [solStep_eq_lastresort h1 h2 h3]⟩
      | none =>
        left
        rw [solStep_eq_stuck h1 h2 h3]

theorem solGo_cells_bound (ws : List PlacedWord) (lcs : List (Nat × Nat))
    (sw : List Char) (hl : ∀ lc ∈ lcs, lc.1 < GRID_SIZE ∧ lc.2 < GRID_SIZE) :
    ∀ (n i : Nat) (st : SolState),
      (∀ sc ∈ st.cells, sc.row < GRID_SIZE ∧ sc.col < GRID_SIZE) →
      ∀ sc ∈ (solGo ws lcs sw n i st).cells, sc.row < GRID_SIZE ∧ sc.col < GRID_SIZE := by
  intro n
  induction n with
  | zero =>
    intro i st h
    exact h
  | succ m ih =>
    intro i st h
    apply ih (i + 1)
    intro sc hsc
    rcases solStep_cells ws lcs sw i st with heq | ⟨lc, hlc, heq⟩
    · rw [heq] at hsc
      exact h sc hsc
    · rw [heq] at hsc
      rcases List.mem_append.mp hsc with hsc | hsc
      · exact h sc hsc
      · rw [List.mem_singleton.mp hsc]
        exact hl lc hlc


theorem cellDims_to_rows {cg : CellGrid} (h : CellDims cg) :
    cg.length = GRID_SIZE ∧ ∀ row ∈ cg, row.length = GRID_SIZE := by
  refine ⟨h.1, ?_⟩
  intro row hrow
  obtain ⟨i, hi, hrow⟩ := List.mem_iff_getElem.mp hrow
  have hgd : cg.getD i [] = row := by
    rw [List.getD_eq_getElem?_getD, List.getElem?_eq_getElem hi, hrow]
    rfl
  rw [← hgd]
  apply h.2
  have := h.1
  omega

/-- C7: under the contract's precondition of a non-empty word pool and a
non-empty solution-word list, generatePuzzle always returns a structurally
well-formed Puzzle: a full 15x15 grid, every placed word inside the grid, and
every solution cell inside the grid. The embedding is total, so there is no
error path, and a result with fewer placed words than the pool size is an
ordinary value of the function. -/
theorem claim_C7_total (pool : List WordEntry) (sols : List (List Char))
    (rng : List Nat) (hpool : pool ≠ []) (hsols : sols ≠ []) :
    WFPuzzle (generatePuzzle pool sols rng) := by
  have hcg0 : CellDims (genCellGrid pool sols rng) := by
    unfold genCellGrid
    exact cellDims_setNumAndClues _ _ (cellDims_buildCellGrid _)
  have hdims : CellDims (genFinal pool sols rng).cg := by
    unfold genFinal
    exact cellDims_solGo _ _ _ _ _ _ hcg0
  obtain ⟨hlen, hrows⟩ := cellDims_to_rows hdims
  refine ⟨hlen, hrows, ?_, ?_⟩
  · intro pw hpw
    obtain ⟨B0, hB0, hB0sk⟩ := mem_genNumbered_sk hpw
    exact (sk_inBounds hB0sk).mp ((layoutInv_genBest pool sols rng).inb B0 hB0)
  · intro sc hsc
    have hbound := solGo_cells_bound (genNumbered pool sols rng)
      (letterCells (genCellGrid pool sols rng)) (genSolWord sols rng)
      (fun lc hlc => mem_letterCells hlc)
      (genSolWord sols rng).length 0
      { cg := genCellGrid pool sols rng, cells := [], used := [], usedW := [],
        rng := (genBest pool sols rng).2 }
      (by simp)
    exact hbound sc hsc

/-- Witness for C7 on a concrete non-empty pool and solution list. -/
theorem claim_C7_total_witness :
    exPool2 ≠ [] ∧ exSols1 ≠ [] ∧ WFPuzzle (generatePuzzle exPool2 exSols1 []) :=
  ⟨by decide, by decide, claim_C7_total exPool2 exSols1 [] (by decide) (by decide)⟩


/-!
Clue numbering: properties of the numbering walk.
-/

theorem keyLe_asymm {a b : Nat × Nat} (h1 : keyLe a b) (h2 : keyLt b a) : False := by
  unfold keyLe at h1
  unfold keyLt at h2
  omega

theorem keyLt_irrefl (a : Nat × Nat) : ¬keyLt a a := by
  unfold keyLt
  omega

theorem keyLt_trichotomy (a b : Nat × Nat) : keyLt a b ∨ a = b ∨ keyLt b a := by
  unfold keyLt
  rcases Nat.lt_trichotomy a.1 b.1 with h | h | h
  · exact Or.inl (Or.inl h)
  · rcases Nat.lt_trichotomy a.2 b.2 with h2 | h2 | h2
    · exact Or.inl (Or.inr ⟨h, h2⟩)
    · exact Or.inr (Or.inl (Prod.ext h h2))
    · exact Or.inr (Or.inr (Or.inr ⟨h.symm, h2⟩))
  · exact Or.inr (Or.inr (Or.inl h))

theorem pwLe_keyLe {a b : PlacedWord} (h : pwLe a b) :
    keyLe (startKey a) (startKey b) := by
  unfold pwLe at h
  unfold keyLe startKey
  dsimp only
  omega

theorem keyLookup_mem {m : List ((Nat × Nat) × Nat)} {k : Nat × Nat} {v : Nat}
    (hnd : (m.map Prod.fst).Nodup) :
    keyLookup m k = some v ↔ (k, v) ∈ m := by
  induction m with
  | nil => simp [keyLookup]
  | cons kv rest ih =>
    rw [keyLookup]
    rw [List.map_cons, List.nodup_cons] at hnd
    by_cases hk : kv.1 = k
    · rw [if_pos hk]
      constructor
      · intro h
        have hv : kv.2 = v := by
          injection h
        rw [← hk, ← hv]
        exact List.mem_cons_self _ _
      · intro h
        rcases List.mem_cons.mp h with h | h
        · rw [← h]
        · exact absurd (by
            rw [hk]
            exact List.mem_map_of_mem Prod.fst h) hnd.1
    · rw [if_neg hk]
      rw [ih hnd.2]
      constructor
      · exact fun h => List.mem_cons_of_mem _ h
      · intro h
        rcases List.mem_cons.mp h with h | h
        · exact absurd (by rw [← h]) hk
        · exact h

theorem keyLookup_none {m : List ((Nat × Nat) × Nat)} {k : Nat × Nat} :
    keyLookup m k = none ↔ ∀ kv ∈ m, kv.1 ≠ k := by
  induction m with
  | nil => simp [keyLookup]
  | cons kv rest ih =>
    rw [keyLookup]
    by_cases hk : kv.1 = k
    · rw [if_pos hk]
      constructor
      · intro h
        exact absurd h (by simp)
      · intro h
        exact absurd hk (h kv (List.mem_cons_self _ _))
    · rw [if_neg hk]
      rw [ih]
      constructor
      · intro h kv2 hkv2
        rcases List.mem_cons.mp hkv2 with h2 | h2
        · rw [h2]
          exact hk
        · exact h kv2 h2
      · intro h kv2 hkv2
        exact h kv2 (List.mem_cons_of_mem _ hkv2)

theorem mapInv_value_unique {m : List ((Nat × Nat) × Nat)} {k : Nat × Nat}
    {v1 v2 : Nat} (hnd : (m.map Prod.fst).Nodup)
    (h1 : (k, v1) ∈ m) (h2 : (k, v2) ∈ m) : v1 = v2 := by
  have hl1 : keyLookup m k = some v1 := (keyLookup_mem hnd).mpr h1
  have hl2 : keyLookup m k = some v2 := (keyLookup_mem hnd).mpr h2
  rw [hl1] at hl2
  injection hl2

theorem mapInv_nil : MapInv [] 1 := by
  refine ⟨by simp, by simp, by simp, by simp, ?_⟩
  intro v h1 h2
  simp at h2
  omega


theorem numberGo_spec :
    ∀ (l : List PlacedWord) (m : List ((Nat × Nat) × Nat)) (n : Nat),
      MapInv m n → l.Sorted pwLe →
      (∀ pw ∈ l, ∀ kv ∈ m, keyLe kv.1 (startKey pw)) →
      MapInv (numberGo l m n).2.1 (numberGo l m n).2.2 ∧
      (∀ kv ∈ m, kv ∈ (numberGo l m n).2.1) ∧
      (∀ kv ∈ (numberGo l m n).2.1,
        kv ∈ m ∨ ∃ e ∈ (numberGo l m n).1, startKey e = kv.1 ∧ e.number = kv.2) ∧
      (∀ e ∈ (numberGo l m n).1, (startKey e, e.number) ∈ (numberGo l m n).2.1) := by
  intro l
  induction l with
  | nil =>
    intro m n hinv hsort hbound
    exact ⟨hinv, fun kv h => h, fun kv h => Or.inl h, by simp [numberGo]⟩
  | cons pw rest ih =>
    intro m n hinv hsort hbound
    have hsortc := List.sorted_cons.mp hsort
    rw [numberGo]
    cases hlk : keyLookup m (startKey pw) with
    | some v =>
      dsimp only
      have hrec := ih m n hinv hsortc.2
        (fun p hp kv hkv => hbound p (List.mem_cons_of_mem _ hp) kv hkv)
      refine ⟨hrec.1, hrec.2.1, ?_, ?_⟩
      · intro kv hkv
        rcases hrec.2.2.1 kv hkv with h | ⟨e, he, h1, h2⟩
        · exact Or.inl h
        · exact Or.inr ⟨e, List.mem_cons_of_mem _ he, h1, h2⟩
      · intro e he
        rcases List.mem_cons.mp he with he | he
        · subst he
          have hmem : (startKey pw, v) ∈ m := (keyLookup_mem hinv.1).mp hlk
          exact hrec.2.1 _ hmem
        · exact hrec.2.2.2 e he
    | none =>
      dsimp only
      have hknotin : ∀ kv ∈ m, kv.1 ≠ startKey pw := keyLookup_none.mp hlk
      obtain ⟨hnd, hlen, hvb, hord, hsurj⟩ := hinv
      have hinv2 : MapInv ((startKey pw, n) :: m) (n + 1) := by
        refine ⟨?_, ?_, ?_, ?_, ?_⟩
        · rw [List.map_cons, List.nodup_cons]
          refine ⟨?_, hnd⟩
          intro hmem
          obtain ⟨kv, hkv, hkveq⟩ := List.mem_map.mp hmem
          exact hknotin kv hkv hkveq
        · rw [List.length_cons]
          omega
        · intro kv hkv
          rw [List.length_cons]
          rcases List.mem_cons.mp hkv with h | h
          · rw [h]
            dsimp only
            omega
          · have := hvb kv h
            omega
        · intro kv hkv kv2 hkv2 hlt
          rcases List.mem_cons.mp hkv with h | h <;>
            rcases List.mem_cons.mp hkv2 with h2 | h2
          · rw [h] at hlt
            rw [h2] at hlt
            exact absurd hlt (keyLt_irrefl _)
          · rw [h] at hlt
            dsimp only at hlt
            exact absurd hlt (fun hlt => keyLe_asymm
              (hbound pw (List.mem_cons_self _ _) kv2 h2) hlt)
          · rw [h2]
            dsimp only
            have := hvb kv h
            omega
          · exact hord kv h kv2 h2 hlt
        · intro v h1 h2
          rw [List.length_cons] at h2
          by_cases hv : v = n
          · exact ⟨(startKey pw, n), List.mem_cons_self _ _, by rw [hv]⟩
          · have hvle : v ≤ m.length := by omega
            obtain ⟨kv, hkv, hkveq⟩ := hsurj v h1 hvle
            exact ⟨kv, List.mem_cons_of_mem _ hkv, hkveq⟩
      have hbound2 : ∀ p ∈ rest, ∀ kv ∈ (startKey pw, n) :: m,
          keyLe kv.1 (startKey p) := by
        intro p hp kv hkv
        rcases List.mem_cons.mp hkv with h | h
        · rw [h]
          exact pwLe_keyLe (hsortc.1 p hp)
        · exact hbound p (List.mem_cons_of_mem _ hp) kv h
      have hrec := ih ((startKey pw, n) :: m) (n + 1) hinv2 hsortc.2 hbound2
      refine ⟨hrec.1, ?_, ?_, ?_⟩
      · intro kv hkv
        exact hrec.2.1 kv (List.mem_cons_of_mem _ hkv)
      · intro kv hkv
        rcases hrec.2.2.1 kv hkv with h | ⟨e, he, h1, h2⟩
        · rcases List.mem_cons.mp h with h | h
          · right
            refine ⟨{ pw with number := n }, List.mem_cons_self _ _, ?_, ?_⟩
            · rw [h]
              rfl
            · rw [h]
          · exact Or.inl h
        · exact Or.inr ⟨e, List.mem_cons_of_mem _ he, h1, h2⟩
      · intro e he
        rcases List.mem_cons.mp he with he | he
        · subst he
          exact hrec.2.1 _ (List.mem_cons_self _ _)
        · exact hrec.2.2.2 e he


/-!
Effect of the numbering pass on the displayed cell numbers.
-/

theorem cellAt_cellUpdate_field {α : Type} (cg : CellGrid) (r' c' : Nat)
    (f : Cell → Cell) (proj : Cell → α) (hf : ∀ x, proj (f x) = proj x)
    (r c : Nat) :
    proj (cellAt (cellUpdate cg r' c' f) r c) = proj (cellAt cg r c) := by
  by_cases h : r' = r ∧ c' = c
  · obtain ⟨h1, h2⟩ := h
    subst h1
    subst h2
    unfold cellUpdate cellSet cellAt
    by_cases hrl : r' < cg.length
    · rw [getD_set_self _ _ _ hrl]
      by_cases hcl : c' < (cg.getD r' []).length
      · rw [getD_set_self _ _ _ hcl]
        exact hf _
      · rw [List.set_eq_of_length_le (Nat.le_of_not_lt hcl)]
    · rw [List.set_eq_of_length_le (Nat.le_of_not_lt hrl)]
  · rw [cellAt_cellUpdate_of_ne cg f (by
      by_cases hr : r' = r
      · right
        intro hcc
        exact h ⟨hr, hcc⟩
      · exact Or.inl hr)]

theorem setStartNumber_number (cg : CellGrid) (pw : PlacedWord) (hd : CellDims cg)
    (hrb : pw.row < GRID_SIZE) (hcb : pw.col < GRID_SIZE) (r c : Nat) :
    (cellAt (setStartNumber cg pw) r c).number =
      if pw.row = r ∧ pw.col = c then
        match (cellAt cg r c).number with
        | none => some pw.number
        | some m => if pw.number < m then some pw.number else some m
      else (cellAt cg r c).number := by
  unfold setStartNumber
  by_cases h : pw.row = r ∧ pw.col = c
  · rw [if_pos h]
    obtain ⟨h1, h2⟩ := h
    subst h1
    subst h2
    rw [cellAt_cellUpdate_self _ _ hd hrb hcb]
    cases hn : (cellAt cg pw.row pw.col).number with
    | none => rfl
    | some m =>
      show (if pw.number < m then
          { (cellAt cg pw.row pw.col) with number := some pw.number }
        else (cellAt cg pw.row pw.col)).number =
        if pw.number < m then some pw.number else some m
      by_cases hm : pw.number < m
      · rw [if_pos hm, if_pos hm]
      · rw [if_neg hm, if_neg hm]
        exact hn
  · rw [if_neg h]
    rw [cellAt_cellUpdate_of_ne cg _ (by
      by_cases hr : pw.row = r
      · right
        intro hcc
        exact h ⟨hr, hcc⟩
      · exact Or.inl hr)]


theorem setClueCells_number (cg : CellGrid) (pw : PlacedWord) (r c : Nat) :
    (cellAt (setClueCells cg pw) r c).number = (cellAt cg r c).number := by
  unfold setClueCells
  generalize List.range pw.word.length = l
  induction l generalizing cg with
  | nil => rfl
  | cons i rest ihl =>
    rw [List.foldl_cons]
    rw [ihl]
    cases hpd : pw.direction
    · exact cellAt_cellUpdate_field cg (posR pw.row Dir.across i)
        (posC pw.col Dir.across i)
        (fun x => { x with acrossClue := some pw.number })
        (fun x => x.number) (fun x => rfl) r c
    · exact cellAt_cellUpdate_field cg (posR pw.row Dir.down i)
        (posC pw.col Dir.down i)
        (fun x => { x with downClue := some pw.number })
        (fun x => x.number) (fun x => rfl) r c

theorem setNumAndClues_cons (cg : CellGrid) (pw : PlacedWord)
    (rest : List PlacedWord) :
    setNumAndClues cg (pw :: rest) =
      setNumAndClues (setClueCells (setStartNumber cg pw) pw) rest := rfl

theorem setNumAndClues_number :
    ∀ (ws : List PlacedWord) (cg : CellGrid), CellDims cg →
      (∀ pw ∈ ws, pw.row < GRID_SIZE ∧ pw.col < GRID_SIZE) →
      ∀ r c,
      (cellAt (setNumAndClues cg ws) r c).number =
        List.foldl (fun acc nn =>
            match acc with
            | none => some nn
            | some m => if nn < m then some nn else some m)
          ((cellAt cg r c).number)
          ((ws.filter (fun pw => pw.row == r && pw.col == c)).map
            (fun pw => pw.number)) := by
  intro ws
  induction ws with
  | nil =>
    intro cg hd hb r c
    rfl
  | cons pw rest ihw =>
    intro cg hd hb r c
    rw [setNumAndClues_cons]
    have hd2 : CellDims (setClueCells (setStartNumber cg pw) pw) :=
      cellDims_setClueCells _ _ (cellDims_setStartNumber _ _ hd)
    rw [ihw _ hd2 (fun q hq => hb q (List.mem_cons_of_mem _ hq)) r c]
    rw [setClueCells_number]
    rw [setStartNumber_number cg pw hd (hb pw (List.mem_cons_self _ _)).1
      (hb pw (List.mem_cons_self _ _)).2 r c]
    by_cases hpc : pw.row = r ∧ pw.col = c
    · rw [if_pos hpc]
      rw [List.filter_cons_of_pos (by
        rw [Bool.and_eq_true]
        exact ⟨by simp [hpc.1], by simp [hpc.2]⟩)]
      rw [List.map_cons, List.foldl_cons]
    · rw [if_neg hpc]
      rw [List.filter_cons_of_neg (by
        rw [Bool.and_eq_true, not_and_or]
        by_cases hr : pw.row = r
        · right
          intro hcc
          exact hpc ⟨hr, by simpa using hcc⟩
        · left
          intro hrr
          exact hr (by simpa using hrr))]

theorem solStep_number (ws : List PlacedWord) (lcs : List (Nat × Nat))
    (sw : List Char) (i : Nat) (st : SolState) (r c : Nat) :
    (cellAt (solStep ws lcs sw i st).cg r c).number = (cellAt st.cg r c).number := by
  cases h1 : (shuffle lcs st.rng).1.filter (strictOk ws st (sw.getD i 'A')) with
  | cons lc tl =>
    rw [solStep_eq_strict h1, chooseCell_cg]
    exact cellAt_cellUpdate_field st.cg lc.1 lc.2
      (fun x => { x with isSolutionCell := true, solutionIndex := some i })
      (fun x => x.number) (fun x => rfl) r c
  | nil =>
    cases h2 : (shuffle lcs (shuffle lcs st.rng).2).1.filter
        (relaxedOk st (sw.getD i 'A')) with
    | cons lc tl =>
      rw [solStep_eq_fallback h1 h2, chooseCell_cg]
      exact cellAt_cellUpdate_field st.cg lc.1 lc.2
        (fun x => { x with isSolutionCell := true, solutionIndex := some i })
        (fun x => x.number) (fun x => rfl) r c
    | nil =>
      cases h3 : lcs.find? (fun lc => !(st.used.contains lc)) with
      | some lc =>
        rw [solStep_eq_lastresort h1 h2 h3]
        dsimp only
        exact cellAt_cellUpdate_field st.cg lc.1 lc.2
          (fun x => { x with isSolutionCell := true, solutionIndex := some i,
                             letter := some (sw.getD i 'A') })
          (fun x => x.number) (fun x => rfl) r c
      | none =>
        rw [solStep_eq_stuck h1 h2 h3]

theorem solGo_number (ws : List PlacedWord) (lcs : List (Nat × Nat))
    (sw : List Char) :
    ∀ (n i : Nat) (st : SolState) (r c : Nat),
      (cellAt (solGo ws lcs sw n i st).cg r c).number = (cellAt st.cg r c).number := by
  intro n
  induction n with
  | zero =>
    intro i st r c
    rfl
  | succ m ih =>
    intro i st r c
    rw [show solGo ws lcs sw (m + 1) i st =
        solGo ws lcs sw m (i + 1) (solStep ws lcs sw i st) from rfl]
    rw [ih]
    exact solStep_number ws lcs sw i st r c

theorem foldl_optMin_eq_min? (l : List Nat) :
    List.foldl (fun acc nn =>
        match acc with
        | none => some nn
        | some m => if nn < m then some nn else some m)
      none l = l.min? := by
  have haux : ∀ (as : List Nat) (a : Nat),
      List.foldl (fun acc nn =>
          match acc with
          | none => some nn
          | some m => if nn < m then some nn else some m)
        (some a) as = some (as.foldl min a) := by
    intro as
    induction as with
    | nil =>
      intro a
      rfl
    | cons b bs ih =>
      intro a
      rw [List.foldl_cons, List.foldl_cons]
      have hmin : (if b < a then some b else some a) = some (min a b) := by
        by_cases hb : b < a
        · rw [if_pos hb]
          have hm : min a b = b := by
            rw [Nat.min_def, if_neg (by omega)]
          rw [hm]
        · rw [if_neg hb]
          have hm : min a b = a := by
            rw [Nat.min_def, if_pos (by omega)]
          rw [hm]
      rw [show (match some a with
          | none => some b
          | some m => if b < m then some b else some m) =
          (if b < a then some b else some a) from rfl]
      rw [hmin]
      exact ih (min a b)
  cases l with
  | nil => rfl
  | cons a as =>
    rw [List.foldl_cons]
    rw [show (match (none : Option Nat) with
        | none => some a
        | some m => if a < m then some a else some m) = some a from rfl]
    rw [haux as a]
    rfl


/-- C4: clue numbers form the sequence 1, 2, 3, ... over distinct start cells
in ascending row-major order: words sharing a start cell share a number,
row-major-smaller start cells carry strictly smaller numbers, every number is
at least 1, every value below a word's number is carried by some word with a
row-major-smaller start cell, and a grid cell's number field is the smallest
clue number among the words starting at that cell (null when no word starts
there). -/
theorem claim_C4_numbering (pool : List WordEntry) (sols : List (List Char))
    (rng : List Nat) :
    (∀ A ∈ (generatePuzzle pool sols rng).placedWords,
      ∀ B ∈ (generatePuzzle pool sols rng).placedWords,
        startKey A = startKey B → A.number = B.number) ∧
    (∀ A ∈ (generatePuzzle pool sols rng).placedWords,
      ∀ B ∈ (generatePuzzle pool sols rng).placedWords,
        keyLt (startKey A) (startKey B) → A.number < B.number) ∧
    (∀ A ∈ (generatePuzzle pool sols rng).placedWords, 1 ≤ A.number) ∧
    (∀ A ∈ (generatePuzzle pool sols rng).placedWords, ∀ v, 1 ≤ v → v < A.number →
      ∃ B ∈ (generatePuzzle pool sols rng).placedWords,
        B.number = v ∧ keyLt (startKey B) (startKey A)) ∧
    (∀ r c, r < GRID_SIZE → c < GRID_SIZE →
      (cellAt (generatePuzzle pool sols rng).grid r c).number =
        (((generatePuzzle pool sols rng).placedWords.filter
            (fun pw => pw.row == r && pw.col == c)).map
          (fun pw => pw.number)).min?) := by
  have hsorted : List.Sorted pwLe (sortPlaced (genBest pool sols rng).1.2) :=
    List.sorted_insertionSort pwLe _
  have hspec := numberGo_spec (sortPlaced (genBest pool sols rng).1.2) [] 1
    mapInv_nil hsorted
    (fun pw hpw kv hkv => absurd hkv (List.not_mem_nil kv))
  have hentry : ∀ A, A ∈ (generatePuzzle pool sols rng).placedWords →
      (startKey A, A.number) ∈
        (numberGo (sortPlaced (genBest pool sols rng).1.2) [] 1).2.1 :=
    fun A hA => hspec.2.2.2 A hA
  obtain ⟨hfnd, hflen, hfvb, hford, hfsurj⟩ := hspec.1
  refine ⟨?_, ?_, ?_, ?_, ?_⟩
  · intro A hA B hB hkey
    have h1 := hentry A hA
    have h2 := hentry B hB
    rw [hkey] at h1
    exact mapInv_value_unique hfnd h1 h2
  · intro A hA B hB hlt
    exact hford (startKey A, A.number) (hentry A hA)
      (startKey B, B.number) (hentry B hB) hlt
  · intro A hA
    exact (hfvb (startKey A, A.number) (hentry A hA)).1
  · intro A hA v h1 h2
    have hAval := (hfvb (startKey A, A.number) (hentry A hA)).2
    have hvle : v ≤ (numberGo (sortPlaced (genBest pool sols rng).1.2) [] 1).2.1.length := by
      omega
    obtain ⟨kv, hkv, hkval⟩ := hfsurj v h1 hvle
    rcases hspec.2.2.1 kv hkv with h | ⟨e, he, he1, he2⟩
    · exact absurd h (List.not_mem_nil kv)
    · refine ⟨e, he, by rw [he2, hkval], ?_⟩
      rw [he1]
      rcases keyLt_trichotomy kv.1 (startKey A) with h | h | h
      · exact h
      · exfalso
        have hmem2 : (startKey A, kv.2) ∈
            (numberGo (sortPlaced (genBest pool sols rng).1.2) [] 1).2.1 := by
          rw [← h]
          exact hkv
        have := mapInv_value_unique hfnd hmem2 (hentry A hA)
        omega
      · exfalso
        have := hford (startKey A, A.number) (hentry A hA) kv hkv h
        omega
  · intro r c hr hc
    have hbounds : ∀ pw ∈ genNumbered pool sols rng,
        pw.row < GRID_SIZE ∧ pw.col < GRID_SIZE := by
      intro pw hpw
      obtain ⟨B0, hB0, hB0sk⟩ := mem_genNumbered_sk hpw
      have hib := (sk_inBounds hB0sk).mp ((layoutInv_genBest pool sols rng).inb B0 hB0)
      exact ⟨hib.1, hib.2.1⟩
    have hframe : (cellAt (generatePuzzle pool sols rng).grid r c).number =
        (cellAt (genCellGrid pool sols rng) r c).number := by
      show (cellAt (genFinal pool sols rng).cg r c).number = _
      unfold genFinal
      exact solGo_number _ _ _ _ _ _ r c
    rw [hframe]
    show (cellAt (setNumAndClues (buildCellGrid (genBest pool sols rng).1.1)
        (genNumbered pool sols rng)) r c).number = _
    rw [setNumAndClues_number (genNumbered pool sols rng) _
      (cellDims_buildCellGrid _) hbounds r c]
    rw [show (cellAt (buildCellGrid (genBest pool sols rng).1.1) r c).number = none from by
      rw [cellAt_buildCellGrid _ hr hc]]
    exact foldl_optMin_eq_min? _

/-- Witness for C4: the concretely generated two-word puzzle has clue numbers
1 and 2 in row-major order of start cells. -/
theorem claim_C4_numbering_witness :
    ∀ A ∈ (generatePuzzle exPool1 exSols2 []).placedWords, 1 ≤ A.number :=
  (claim_C4_numbering exPool1 exSols2 []).2.2.1

/-!
Frame facts of the numbering pass on the solution flags, and the invariant of
the solution-cell assignment loop.
-/

theorem cellAt_oob {cg : CellGrid} (hd : CellDims cg) {r c : Nat}
    (h : ¬(r < GRID_SIZE ∧ c < GRID_SIZE)) : cellAt cg r c = defaultCell := by
  unfold cellAt
  by_cases hr : r < GRID_SIZE
  · have hc : ¬ c < GRID_SIZE := fun hc => h ⟨hr, hc⟩
    have hlen : (cg.getD r []).length ≤ c := by
      rw [hd.2 r hr]
      omega
    exact List.getD_eq_default _ _ hlen
  · have hlen : cg.length ≤ r := by
      rw [hd.1]
      omega
    rw [List.getD_eq_default _ _ hlen]
    rfl

theorem setStartNumber_solFlags (cg : CellGrid) (pw : PlacedWord) (r c : Nat) :
    ((cellAt (setStartNumber cg pw) r c).isSolutionCell,
      (cellAt (setStartNumber cg pw) r c).solutionIndex) =
      ((cellAt cg r c).isSolutionCell, (cellAt cg r c).solutionIndex) := by
  unfold setStartNumber
  exact cellAt_cellUpdate_field cg pw.row pw.col _
    (fun x => (x.isSolutionCell, x.solutionIndex))
    (fun x => by
      dsimp only
      cases hx : x.number with
      | none => rfl
      | some m =>
        dsimp only
        by_cases hm : pw.number < m
        · rw [if_pos hm]
        · rw [if_neg hm])
    r c

theorem setClueCells_solFlags (cg : CellGrid) (pw : PlacedWord) (r c : Nat) :
    ((cellAt (setClueCells cg pw) r c).isSolutionCell,
      (cellAt (setClueCells cg pw) r c).solutionIndex) =
      ((cellAt cg r c).isSolutionCell, (cellAt cg r c).solutionIndex) := by
  unfold setClueCells
  generalize List.range pw.word.length = l
  induction l generalizing cg with
  | nil => rfl
  | cons i rest ihl =>
    rw [List.foldl_cons]
    rw [ihl]
    cases hpd : pw.direction
    · exact cellAt_cellUpdate_field cg (posR pw.row Dir.across i)
        (posC pw.col Dir.across i)
        (fun x => { x with acrossClue := some pw.number })
        (fun x => (x.isSolutionCell, x.solutionIndex)) (fun x => rfl) r c
    · exact cellAt_cellUpdate_field cg (posR pw.row Dir.down i)
        (posC pw.col Dir.down i)
        (fun x => { x with downClue := some pw.number })
        (fun x => (x.isSolutionCell, x.solutionIndex)) (fun x => rfl) r c

theorem setNumAndClues_solFlags :
    ∀ (ws : List PlacedWord) (cg : CellGrid) (r c : Nat),
      ((cellAt (setNumAndClues cg ws) r c).isSolutionCell,
        (cellAt (setNumAndClues cg ws) r c).solutionIndex) =
        ((cellAt cg r c).isSolutionCell, (cellAt cg r c).solutionIndex) := by
  intro ws
  induction ws with
  | nil =>
    intro cg r c
    rfl
  | cons pw rest ihw =>
    intro cg r c
    rw [setNumAndClues_cons]
    rw [ihw]
    rw [setClueCells_solFlags]
    exact setStartNumber_solFlags cg pw r c

theorem genCellGrid_solFlags (pool : List WordEntry) (sols : List (List Char))
    (rng : List Nat) (r c : Nat) :
    (cellAt (genCellGrid pool sols rng) r c).isSolutionCell = false ∧
    (cellAt (genCellGrid pool sols rng) r c).solutionIndex = none := by
  have hpair := setNumAndClues_solFlags (genNumbered pool sols rng)
    (buildCellGrid (genBest pool sols rng).1.1) r c
  rw [Prod.mk.injEq] at hpair
  by_cases hb : r < GRID_SIZE ∧ c < GRID_SIZE
  · rw [cellAt_buildCellGrid _ hb.1 hb.2] at hpair
    exact ⟨hpair.1, hpair.2⟩
  · rw [cellAt_oob (cellDims_buildCellGrid _) hb] at hpair
    exact ⟨hpair.1, hpair.2⟩

theorem solInv_mem_used {lcs : List (Nat × Nat)} {sw : List Char} {i : Nat}
    {st : SolState} (h : SolInv lcs sw i st) (p : Nat × Nat) :
    p ∈ st.used ↔ ∃ sc ∈ st.cells, sc.row = p.1 ∧ sc.col = p.2 := by
  rw [h.usedEq, List.mem_reverse, List.mem_map]
  constructor
  · rintro ⟨sc, hsc, rfl⟩
    exact ⟨sc, hsc, rfl, rfl⟩
  · rintro ⟨sc, hsc, h1, h2⟩
    exact ⟨sc, hsc, Prod.ext h1 h2⟩

theorem solInv_pos_nodup {lcs : List (Nat × Nat)} {sw : List Char} {i : Nat}
    {st : SolState} (h : SolInv lcs sw i st) :
    (st.cells.map fun sc => (sc.row, sc.col)).Nodup := by
  have hnd := h.usedNodup
  rw [h.usedEq, List.nodup_reverse] at hnd
  exact hnd

theorem solInv_record (lcs : List (Nat × Nat)) (sw : List Char) (i : Nat)
    (st : SolState) (lc : Nat × Nat) (f : Cell → Cell) (uw : List Nat)
    (rng2 : List Nat)
    (hl : ∀ p ∈ lcs, p.1 < GRID_SIZE ∧ p.2 < GRID_SIZE)
    (hf1 : ∀ x, (f x).isSolutionCell = true)
    (hf2 : ∀ x, (f x).solutionIndex = some i)
    (hflet : (f (cellAt st.cg lc.1 lc.2)).letter = some (sw.getD i 'A'))
    (hmem : lc ∈ lcs) (hnew : lc ∉ st.used)
    (h : SolInv lcs sw i st) :
    SolInv lcs sw (i + 1)
      { cg := cellUpdate st.cg lc.1 lc.2 f,
        cells := st.cells ++ [⟨lc.1, lc.2, i⟩],
        used := lc :: st.used,
        usedW := uw,
        rng := rng2 } := by
  have hb := hl lc hmem
  have hold : ∀ sc ∈ st.cells, lc.1 ≠ sc.row ∨ lc.2 ≠ sc.col := by
    intro sc hsc
    by_contra hcon
    push_neg at hcon
    apply hnew
    rw [solInv_mem_used h lc]
    exact ⟨sc, hsc, hcon.1.symm, hcon.2.symm⟩
  refine ⟨?_, ?_, ?_, ?_, ?_, ?_, ?_, ?_, ?_, ?_⟩
  · dsimp only
    exact cellDims_cellUpdate _ _ _ _ h.dims
  · dsimp only
    rw [List.map_append, List.reverse_append, ← h.usedEq]
    rfl
  · dsimp only
    exact List.nodup_cons.mpr ⟨hnew, h.usedNodup⟩
  · dsimp only
    intro p hp
    rcases List.mem_cons.mp hp with hp | hp
    · rw [hp]
      exact hmem
    · exact h.usedSub hp
  · dsimp only
    intro sc hsc
    rcases List.mem_append.mp hsc with hsc | hsc
    · exact Nat.lt_succ_of_lt (h.idxLt sc hsc)
    · rw [List.mem_singleton.mp hsc]
      exact Nat.lt_succ_self i
  · dsimp only
    rw [List.pairwise_append]
    refine ⟨h.mono, by simp, ?_⟩
    intro a ha b hb2
    rw [List.mem_singleton.mp hb2]
    exact h.idxLt a ha
  · dsimp only
    intro r c
    by_cases hrc : lc.1 = r ∧ lc.2 = c
    · obtain ⟨hr1, hc1⟩ := hrc
      subst hr1
      subst hc1
      rw [cellAt_cellUpdate_self _ _ h.dims hb.1 hb.2]
      constructor
      · intro _
        exact ⟨⟨lc.1, lc.2, i⟩,
          List.mem_append.mpr (Or.inr (List.mem_singleton_self _)), rfl, rfl⟩
      · intro _
        exact hf1 _
    · have hne : lc.1 ≠ r ∨ lc.2 ≠ c := by
        by_cases hr : lc.1 = r
        · right
          intro hc1
          exact hrc ⟨hr, hc1⟩
        · left
          exact hr
      rw [cellAt_cellUpdate_of_ne _ _ hne, h.flag r c]
      constructor
      · rintro ⟨sc, hsc, h1, h2⟩
        exact ⟨sc, List.mem_append.mpr (Or.inl hsc), h1, h2⟩
      · rintro ⟨sc, hsc, h1, h2⟩
        rcases List.mem_append.mp hsc with hsc | hsc
        · exact ⟨sc, hsc, h1, h2⟩
        · exfalso
          rw [List.mem_singleton.mp hsc] at h1 h2
          exact hrc ⟨h1, h2⟩
  · dsimp only
    intro sc hsc
    rcases List.mem_append.mp hsc with hsc | hsc
    · rw [cellAt_cellUpdate_of_ne _ _ (hold sc hsc)]
      exact h.sidx sc hsc
    · rw [List.mem_singleton.mp hsc]
      show (cellAt (cellUpdate st.cg lc.1 lc.2 f) lc.1 lc.2).solutionIndex = some i
      rw [cellAt_cellUpdate_self _ _ h.dims hb.1 hb.2]
      exact hf2 _
  · dsimp only
    intro r c hfa
    by_cases hrc : lc.1 = r ∧ lc.2 = c
    · exfalso
      obtain ⟨hr1, hc1⟩ := hrc
      subst hr1
      subst hc1
      rw [cellAt_cellUpdate_self _ _ h.dims hb.1 hb.2, hf1] at hfa
      exact Bool.noConfusion hfa
    · have hne : lc.1 ≠ r ∨ lc.2 ≠ c := by
        by_cases hr : lc.1 = r
        · right
          intro hc1
          exact hrc ⟨hr, hc1⟩
        · left
          exact hr
      rw [cellAt_cellUpdate_of_ne _ _ hne] at hfa ⊢
      exact h.sidxNone r c hfa
  · dsimp only
    intro sc hsc
    rcases List.mem_append.mp hsc with hsc | hsc
    · rw [cellAt_cellUpdate_of_ne _ _ (hold sc hsc)]
      exact h.letters sc hsc
    · rw [List.mem_singleton.mp hsc]
      show (cellAt (cellUpdate st.cg lc.1 lc.2 f) lc.1 lc.2).letter =
        some (sw.getD i 'A')
      rw [cellAt_cellUpdate_self _ _ h.dims hb.1 hb.2]
      exact hflet

theorem solInv_solStep (ws : List PlacedWord) (lcs : List (Nat × Nat))
    (sw : List Char) (i : Nat) (st : SolState)
    (hl : ∀ p ∈ lcs, p.1 < GRID_SIZE ∧ p.2 < GRID_SIZE)
    (h : SolInv lcs sw i st) :
    SolInv lcs sw (i + 1) (solStep ws lcs sw i st) := by
  cases h1 : (shuffle lcs st.rng).1.filter (strictOk ws st (sw.getD i 'A')) with
  | cons lc tl =>
    have hm : lc ∈ (shuffle lcs st.rng).1.filter (strictOk ws st (sw.getD i 'A')) := by
      rw [h1]
      exact List.mem_cons_self _ _
    have hok : strictOk ws st (sw.getD i 'A') lc = true := List.of_mem_filter hm
    have hmem : lc ∈ lcs := shuffle_subset lcs st.rng (List.mem_of_mem_filter hm)
    unfold strictOk at hok
    rw [Bool.and_eq_true] at hok
    obtain ⟨hAB, hC⟩ := hok
    rw [Bool.and_eq_true] at hAB
    obtain ⟨hA, hB⟩ := hAB
    have hlet : (cellAt st.cg lc.1 lc.2).letter = some (sw.getD i 'A') := by
      simpa using hA
    have hnew : lc ∉ st.used := by
      simpa using hB
    rw [solStep_eq_strict h1]
    rw [show chooseCell ws st lc i (shuffle lcs st.rng).2 =
      { cg := cellUpdate st.cg lc.1 lc.2
          (fun x => { x with isSolutionCell := true, solutionIndex := some i }),
        cells := st.cells ++ [⟨lc.1, lc.2, i⟩],
        used := lc :: st.used,
        usedW := st.usedW ++ wordIndicesAt ws lc.1 lc.2,
        rng := (shuffle lcs st.rng).2 } from rfl]
    exact solInv_record lcs sw i st lc _ _ _ hl (fun x => rfl) (fun x => rfl)
      hlet hmem hnew h
  | nil =>
    cases h2 : (shuffle lcs (shuffle lcs st.rng).2).1.filter
        (relaxedOk st (sw.getD i 'A')) with
    | cons lc tl =>
      have hm : lc ∈ (shuffle lcs (shuffle lcs st.rng).2).1.filter
          (relaxedOk st (sw.getD i 'A')) := by
        rw [h2]
        exact List.mem_cons_self _ _
      have hok : relaxedOk st (sw.getD i 'A') lc = true := List.of_mem_filter hm
      have hmem : lc ∈ lcs := shuffle_subset lcs _ (List.mem_of_mem_filter hm)
      unfold relaxedOk at hok
      rw [Bool.and_eq_true] at hok
      obtain ⟨hA, hB⟩ := hok
      have hlet : (cellAt st.cg lc.1 lc.2).letter = some (sw.getD i 'A') := by
        simpa using hA
      have hnew : lc ∉ st.used := by
        simpa using hB
      rw [solStep_eq_fallback h1 h2]
      rw [show chooseCell ws st lc i (shuffle lcs (shuffle lcs st.rng).2).2 =
        { cg := cellUpdate st.cg lc.1 lc.2
            (fun x => { x with isSolutionCell := true, solutionIndex := some i }),
          cells := st.cells ++ [⟨lc.1, lc.2, i⟩],
          used := lc :: st.used,
          usedW := st.usedW ++ wordIndicesAt ws lc.1 lc.2,
          rng := (shuffle lcs (shuffle lcs st.rng).2).2 } from rfl]
      exact solInv_record lcs sw i st lc _ _ _ hl (fun x => rfl) (fun x => rfl)
        hlet hmem hnew h
    | nil =>
      cases h3 : lcs.find? (fun p => !(st.used.contains p)) with
      | some lc =>
        have hmem : lc ∈ lcs := List.mem_of_find?_eq_some h3
        have hpred := List.find?_some h3
        have hnew : lc ∉ st.used := by
          simpa using hpred
        rw [solStep_eq_lastresort h1 h2 h3]
        exact solInv_record lcs sw i st lc
          (fun x => { x with isSolutionCell := true, solutionIndex := some i,
                             letter := some (sw.getD i 'A') })
          st.usedW (shuffle lcs (shuffle lcs st.rng).2).2 hl
          (fun x => rfl) (fun x => rfl) rfl hmem hnew h
      | none =>
        rw [solStep_eq_stuck h1 h2 h3]
        exact ⟨h.dims, h.usedEq, h.usedNodup, h.usedSub,
          fun sc hsc => Nat.lt_succ_of_lt (h.idxLt sc hsc),
          h.mono, h.flag, h.sidx, h.sidxNone, h.letters⟩

theorem solInv_solGo (ws : List PlacedWord) (lcs : List (Nat × Nat))
    (sw : List Char)
    (hl : ∀ p ∈ lcs, p.1 < GRID_SIZE ∧ p.2 < GRID_SIZE) :
    ∀ (n i : Nat) (st : SolState), SolInv lcs sw i st →
      SolInv lcs sw (i + n) (solGo ws lcs sw n i st) := by
  intro n
  induction n with
  | zero =>
    intro i st h
    exact h
  | succ m ih =>
    intro i st h
    have heq : i + (m + 1) = (i + 1) + m := by omega
    rw [heq]
    exact ih (i + 1) _ (solInv_solStep ws lcs sw i st hl h)

theorem solInv_init (pool : List WordEntry) (sols : List (List Char))
    (rng : List Nat) :
    SolInv (letterCells (genCellGrid pool sols rng)) (genSolWord sols rng) 0
      { cg := genCellGrid pool sols rng, cells := [], used := [], usedW := [],
        rng := (genBest pool sols rng).2 } := by
  refine ⟨?_, rfl, List.nodup_nil, List.nil_subset _, ?_, List.Pairwise.nil,
    ?_, ?_, ?_, ?_⟩
  · dsimp only
    exact cellDims_setNumAndClues _ _ (cellDims_buildCellGrid _)
  · dsimp only
    intro sc hsc
    exact absurd hsc (List.not_mem_nil sc)
  · dsimp only
    intro r c
    constructor
    · intro hT
      rw [(genCellGrid_solFlags pool sols rng r c).1] at hT
      exact Bool.noConfusion hT
    · rintro ⟨sc, hsc, -⟩
      exact absurd hsc (List.not_mem_nil sc)
  · dsimp only
    intro sc hsc
    exact absurd hsc (List.not_mem_nil sc)
  · dsimp only
    intro r c _
    exact (genCellGrid_solFlags pool sols rng r c).2
  · dsimp only
    intro sc hsc
    exact absurd hsc (List.not_mem_nil sc)

theorem letterCells_nodup (cg : CellGrid) : (letterCells cg).Nodup := by
  have haux : ∀ (l : List Nat), l.Nodup → ∀ (f : Nat → List Nat),
      (∀ r, (f r).Nodup) →
      (l.flatMap fun r => (f r).map fun c => (r, c)).Nodup := by
    intro l
    induction l with
    | nil =>
      intro _ f _
      simp
    | cons r rest ih =>
      intro hnd f hf
      rw [List.flatMap_cons, List.nodup_append]
      refine ⟨(hf r).map (fun a b hab => by injection hab),
        ih (List.Nodup.of_cons hnd) f hf, ?_⟩
      intro x hx1 hx2
      rw [List.mem_map] at hx1
      obtain ⟨c1, hc1, rfl⟩ := hx1
      rw [List.mem_flatMap] at hx2
      obtain ⟨r2, hr2, hx2⟩ := hx2
      rw [List.mem_map] at hx2
      obtain ⟨c2, hc2, heq⟩ := hx2
      have hrr : r2 = r := congrArg Prod.fst heq
      rw [hrr] at hr2
      exact (List.nodup_cons.mp hnd).1 hr2
  unfold letterCells
  exact haux (List.range GRID_SIZE) (List.nodup_range _)
    (fun r => (List.range GRID_SIZE).filter (fun c => !(cellAt cg r c).isBlack))
    (fun r => (List.nodup_range _).filter _)

theorem solGo_length (ws : List PlacedWord) (lcs : List (Nat × Nat))
    (sw : List Char)
    (hl : ∀ p ∈ lcs, p.1 < GRID_SIZE ∧ p.2 < GRID_SIZE) (hnd : lcs.Nodup) :
    ∀ (n i : Nat) (st : SolState), SolInv lcs sw i st →
      st.used.length + n ≤ lcs.length →
      (solGo ws lcs sw n i st).cells.length = st.cells.length + n := by
  intro n
  induction n with
  | zero =>
    intro i st _ _
    rfl
  | succ m ih =>
    intro i st hinv hle
    have husedlen : st.used.length = st.cells.length := by
      rw [hinv.usedEq]
      simp
    have hex : ∃ p ∈ lcs, p ∉ st.used := by
      by_contra hall
      push_neg at hall
      have hsub : lcs ⊆ st.used := by
        intro p hp
        exact hall p hp
      have hcard : lcs.length ≤ st.used.length :=
        calc lcs.length = lcs.toFinset.card := (List.toFinset_card_of_nodup hnd).symm
          _ ≤ st.used.toFinset.card := Finset.card_le_card (fun x hx => by
              rw [List.mem_toFinset] at hx ⊢
              exact hsub hx)
          _ ≤ st.used.length := st.used.toFinset_card_le
      omega
    obtain ⟨q, hq, hqn⟩ := hex
    have hstep : (solStep ws lcs sw i st).cells.length = st.cells.length + 1 ∧
        (solStep ws lcs sw i st).used.length = st.used.length + 1 := by
      cases h1 : (shuffle lcs st.rng).1.filter (strictOk ws st (sw.getD i 'A')) with
      | cons lc tl =>
        rw [solStep_eq_strict h1]
        constructor
        · show (st.cells ++ [(⟨lc.1, lc.2, i⟩ : SolCell)]).length = _
          simp
        · show (lc :: st.used).length = _
          simp
      | nil =>
        cases h2 : (shuffle lcs (shuffle lcs st.rng).2).1.filter
            (relaxedOk st (sw.getD i 'A')) with
        | cons lc tl =>
          rw [solStep_eq_fallback h1 h2]
          constructor
          · show (st.cells ++ [(⟨lc.1, lc.2, i⟩ : SolCell)]).length = _
            simp
          · show (lc :: st.used).length = _
            simp
        | nil =>
          cases h3 : lcs.find? (fun p => !(st.used.contains p)) with
          | some lc =>
            rw [solStep_eq_lastresort h1 h2 h3]
            constructor
            · show (st.cells ++ [(⟨lc.1, lc.2, i⟩ : SolCell)]).length = _
              simp
            · show (lc :: st.used).length = _
              simp
          | none =>
            exfalso
            apply List.find?_eq_none.mp h3 q hq
            simpa using hqn
    have hinv2 := solInv_solStep ws lcs sw i st hl hinv
    have hg : solGo ws lcs sw (m + 1) i st =
        solGo ws lcs sw m (i + 1) (solStep ws lcs sw i st) := rfl
    rw [hg]
    rw [ih (i + 1) (solStep ws lcs sw i st) hinv2 (by rw [hstep.2]; omega)]
    rw [hstep.1]
    omega

/-- C10: for every returned puzzle the solutionCells entries name pairwise
distinct grid cells and appear in strictly increasing order of their index
field; a grid cell carries isSolutionCell = true exactly when some entry
names it, in which case its solutionIndex is the entry's index, and a cell
without the flag carries no solutionIndex. -/
theorem claim_C10_solution_cells (pool : List WordEntry)
    (sols : List (List Char)) (rng : List Nat) :
    ((generatePuzzle pool sols rng).solutionCells.map
      fun sc => (sc.row, sc.col)).Nodup ∧
    (generatePuzzle pool sols rng).solutionCells.Pairwise
      (fun a b => a.index < b.index) ∧
    (∀ r c, (cellAt (generatePuzzle pool sols rng).grid r c).isSolutionCell = true ↔
      ∃ sc ∈ (generatePuzzle pool sols rng).solutionCells,
        sc.row = r ∧ sc.col = c) ∧
    (∀ sc ∈ (generatePuzzle pool sols rng).solutionCells,
      (cellAt (generatePuzzle pool sols rng).grid sc.row sc.col).solutionIndex =
        some sc.index) ∧
    (∀ r c, (cellAt (generatePuzzle pool sols rng).grid r c).isSolutionCell = false →
      (cellAt (generatePuzzle pool sols rng).grid r c).solutionIndex = none) := by
  have hl : ∀ p ∈ letterCells (genCellGrid pool sols rng),
      p.1 < GRID_SIZE ∧ p.2 < GRID_SIZE := fun p hp => mem_letterCells hp
  have hinv := solInv_solGo (genNumbered pool sols rng)
    (letterCells (genCellGrid pool sols rng)) (genSolWord sols rng) hl
    (genSolWord sols rng).length 0
    { cg := genCellGrid pool sols rng, cells := [], used := [], usedW := [],
      rng := (genBest pool sols rng).2 }
    (solInv_init pool sols rng)
  exact ⟨solInv_pos_nodup hinv, hinv.mono, hinv.flag, hinv.sidx, hinv.sidxNone⟩

/-- Witness for C10: the concretely generated two-word puzzle records
pairwise distinct solution cells. -/
theorem claim_C10_solution_cells_witness :
    ((generatePuzzle exPool1 exSols2 []).solutionCells.map
      fun sc => (sc.row, sc.col)).Nodup :=
  (claim_C10_solution_cells exPool1 exSols2 []).1

/-- C3 (amended): every recorded solution cell's grid letter equals the
corresponding solution-word letter, unconditionally; and whenever the winning
layout offers at least as many letter cells as the solution word has letters,
the number of recorded solution cells equals the solution word's length. The
unconditional length equality of the original claim fails when the grid has
fewer letter cells than the solution word has letters, because even the
letter-overwriting last resort skips a letter once every letter cell is
claimed. -/
theorem claim_C3_solution_coverage (pool : List WordEntry)
    (sols : List (List Char)) (rng : List Nat) :
    (∀ sc ∈ (generatePuzzle pool sols rng).solutionCells,
      (cellAt (generatePuzzle pool sols rng).grid sc.row sc.col).letter =
        some ((generatePuzzle pool sols rng).solutionWord.getD sc.index 'A')) ∧
    ((generatePuzzle pool sols rng).solutionWord.length ≤
        (letterCells (genCellGrid pool sols rng)).length →
      (generatePuzzle pool sols rng).solutionCells.length =
        (generatePuzzle pool sols rng).solutionWord.length) := by
  have hl : ∀ p ∈ letterCells (genCellGrid pool sols rng),
      p.1 < GRID_SIZE ∧ p.2 < GRID_SIZE := fun p hp => mem_letterCells hp
  constructor
  · have hinv := solInv_solGo (genNumbered pool sols rng)
      (letterCells (genCellGrid pool sols rng)) (genSolWord sols rng) hl
      (genSolWord sols rng).length 0
      { cg := genCellGrid pool sols rng, cells := [], used := [], usedW := [],
        rng := (genBest pool sols rng).2 }
      (solInv_init pool sols rng)
    exact hinv.letters
  · intro hle
    have h2 := solGo_length (genNumbered pool sols rng)
      (letterCells (genCellGrid pool sols rng)) (genSolWord sols rng) hl
      (letterCells_nodup _) (genSolWord sols rng).length 0
      { cg := genCellGrid pool sols rng, cells := [], used := [], usedW := [],
        rng := (genBest pool sols rng).2 }
      (solInv_init pool sols rng) (by simpa using hle)
    simpa using h2

/-- Witness for the amended C3: the two-word puzzle from the crossing pool
has enough letter cells, and its 2 solution cells match its 2-letter
solution word. -/
theorem claim_C3_solution_coverage_witness :
    (generatePuzzle exPool1 exSols2 []).solutionWord.length ≤
      (letterCells (genCellGrid exPool1 exSols2 [])).length ∧
    (generatePuzzle exPool1 exSols2 []).solutionCells.length =
      (generatePuzzle exPool1 exSols2 []).solutionWord.length :=
  ⟨by decide, (claim_C3_solution_coverage exPool1 exSols2 []).2 (by decide)⟩

/-- Counterexample to C3 as stated: the one-word pool AB with the 3-letter
solution word XYZ (both non-empty, as the contract assumes) yields a puzzle
whose grid has only two letter cells, so only 2 solution cells are recorded
for the 3-letter solution word and the lengths differ. -/
theorem claim_C3_counterexample :
    exPool2 ≠ [] ∧ exSols1 ≠ [] ∧
    (generatePuzzle exPool2 exSols1 []).solutionCells.length ≠
      (generatePuzzle exPool2 exSols1 []).solutionWord.length := by
  refine ⟨by decide, by decide, by decide⟩

/-- C8: when the letter-overwriting last resort of the solution-cell loop
fires (no unclaimed cell passes the strict tier or the relaxed tier, and an
unclaimed letter cell exists), exactly the chosen cell's letter becomes the
target solution letter, and every other grid cell keeps its letter unchanged
by that step. -/
theorem claim_C8_fallback_frame (ws : List PlacedWord) (lcs : List (Nat × Nat))
    (sw : List Char) (i : Nat) (st : SolState) (lc : Nat × Nat)
    (hd : CellDims st.cg)
    (hl : ∀ p ∈ lcs, p.1 < GRID_SIZE ∧ p.2 < GRID_SIZE)
    (h1 : (shuffle lcs st.rng).1.filter (strictOk ws st (sw.getD i 'A')) = [])
    (h2 : (shuffle lcs (shuffle lcs st.rng).2).1.filter
        (relaxedOk st (sw.getD i 'A')) = [])
    (h3 : lcs.find? (fun p => !(st.used.contains p)) = some lc) :
    (cellAt (solStep ws lcs sw i st).cg lc.1 lc.2).letter =
      some (sw.getD i 'A') ∧
    ∀ r c, ¬(r = lc.1 ∧ c = lc.2) →
      (cellAt (solStep ws lcs sw i st).cg r c).letter =
        (cellAt st.cg r c).letter := by
  have hmem : lc ∈ lcs := List.mem_of_find?_eq_some h3
  have hb := hl lc hmem
  rw [solStep_eq_lastresort h1 h2 h3]
  dsimp only
  constructor
  · rw [cellAt_cellUpdate_self _ _ hd hb.1 hb.2]
  · intro r c hne
    rw [cellAt_cellUpdate_of_ne _ _ (by
      by_cases hr : lc.1 = r
      · right
        intro hcc
        exact hne ⟨hr.symm, hcc.symm⟩
      · left
        exact hr)]

/-- Witness for C8: on the CAT-only grid with target letter Z (matched by no
cell), the last resort fires at the first letter cell (7, 6) and overwrites
its letter to Z. -/
theorem claim_C8_fallback_frame_witness :
    CellDims (buildCellGrid exGrid1) ∧
    (∀ p ∈ letterCells (buildCellGrid exGrid1),
      p.1 < GRID_SIZE ∧ p.2 < GRID_SIZE) ∧
    (cellAt (solStep exPlaced1 (letterCells (buildCellGrid exGrid1)) ['Z'] 0
        { cg := buildCellGrid exGrid1, cells := [], used := [], usedW := [],
          rng := [] }).cg 7 6).letter = some 'Z' := by
  refine ⟨cellDims_buildCellGrid _, by decide, ?_⟩
  exact (claim_C8_fallback_frame exPlaced1 (letterCells (buildCellGrid exGrid1))
    ['Z'] 0
    { cg := buildCellGrid exGrid1, cells := [], used := [], usedW := [],
      rng := [] }
    (7, 6) (cellDims_buildCellGrid _) (by decide) (by decide) (by decide)
    (by decide)).1

end Crossword


